import Mathlib

/-!
Verification of the adaptive CDK synthesis pipeline:
`cdk_synthesis_handler.py` (environment detection, fallback ladder,
error classification) and `cdk_template_cleaner.py` (template
normalization).  Python dictionaries are embedded as insertion-ordered
association lists over a JSON-like value type; the subprocess boundary of
the orchestrator is embedded as an explicit list of per-strategy process
outcomes; Python exceptions are embedded with `Option`.
-/

/-! ## String primitives (Python `in`, slicing, `lower`) -/

/-- Whether the first list of characters starts the second. -/
def chStarts : List Char → List Char → Bool
  | [], _ => true
  | _ :: _, [] => false
  | a :: as, b :: bs => a = b && chStarts as bs

/-- Whether the first list of characters occurs contiguously in the second. -/
def chHasSub (n : List Char) : List Char → Bool
  | [] => n.isEmpty
  | c :: rest => chStarts n (c :: rest) || chHasSub n rest

/-- Python `needle in haystack` on strings (substring containment). -/
def strHas (haystack needle : String) : Bool :=
  chHasSub needle.data haystack.data

/-- Python `s[:n]` (truncation by characters). -/
def strTake (s : String) (n : Nat) : String :=
  String.mk (s.data.take n)

/-- Python `s.lower()` (ASCII-relevant lowering). -/
def strLower (s : String) : String :=
  String.mk (s.data.map Char.toLower)

/-! ## Error classification (`classify_cdk_error`, `_is_fatal_cdk_error`) -/

/-- The fatal error markers of `_is_fatal_cdk_error`. -/
def fatal_patterns : List String :=
  ["SyntaxError", "ModuleNotFoundError", "Cannot find module", "ENOENT",
   "No such file or directory", "cdk.json not found"]

/-- `_is_fatal_cdk_error(error_msg)`: whether any fatal pattern occurs in
`error_msg`. -/
def is_fatal_cdk_error (error_msg : String) : Bool :=
  fatal_patterns.any (fun pattern => strHas error_msg pattern)

/-- The classification record returned by `classify_cdk_error`
(the Python dict; `technical_details` is absent in the empty-message
branch, hence `Option`). -/
structure ErrorDiagnosis where
  type : String
  message : String
  technical_details : Option String
  recommendations : List String
  user_fixable : Bool
  deriving Repr, DecidableEq

/-- `classify_cdk_error(error_msg, language)`.  The argument is
`Option String` because the orchestrator can pass Python `None`
(a missing attempt error); `none` and the empty string are both falsy. -/
def classify_cdk_error (error_msg : Option String) (language : String) :
    ErrorDiagnosis :=
  match error_msg with
  | none =>
    { type := "unknown"
      message := "CDK synthesis failed"
      technical_details := none
      recommendations := ["Try running \"cdk synth\" locally to debug"]
      user_fixable := true }
  | some msg =>
    if msg = "" then
      { type := "unknown"
        message := "CDK synthesis failed"
        technical_details := none
        recommendations := ["Try running \"cdk synth\" locally to debug"]
        user_fixable := true }
    else if strHas msg "nodejs22.x" || strHas msg "E3030" then
      { type := "runtime_compatibility"
        message := "Lambda runtime not supported by AWS"
        technical_details := some (strTake msg 300)
        recommendations :=
          ["Add to cdk.json context: \"@aws-cdk/customresources:defaultRuntime\": \"nodejs20.x\"",
           "Or use CDK version 2.100.0 or earlier",
           "AWS Lambda will support nodejs22.x soon"]
        user_fixable := true }
    else if strHas msg "ModuleNotFoundError" || strHas msg "Cannot find module" then
      { type := "missing_dependencies"
        message := "Required dependencies not installed"
        technical_details := some (strTake msg 300)
        recommendations :=
          ["Run: " ++ (if language = "python" then "pip install -r requirements.txt"
                       else "npm install"),
           "Ensure all dependencies are listed in your config files",
           "Check that dependency versions are compatible"]
        user_fixable := true }
    else if strHas msg "not authorized" || strHas msg "AccessDenied" then
      { type := "aws_credentials"
        message := "AWS API calls failed (expected in CI/CD)"
        technical_details := some "Used --no-lookups fallback"
        recommendations :=
          ["This is normal in CI/CD environments",
           "Ensure cdk.context.json has cached values",
           "Context values will be used instead of AWS API lookups"]
        user_fixable := false }
    else if strHas (strLower msg) "timeout" || strHas msg "Timeout" then
      { type := "timeout"
        message := "CDK synthesis took longer than 5 minutes"
        technical_details := some "Synthesis timeout"
        recommendations :=
          ["Optimize CDK app (reduce complexity)",
           "Split into smaller stacks",
           "Check for infinite loops in synthesis logic"]
        user_fixable := true }
    else
      { type := "synthesis_error"
        message := "CDK synthesis failed"
        technical_details := some (strTake msg 300)
        recommendations :=
          ["Run \"cdk synth\" locally to reproduce the error",
           "Check CDK code for syntax or configuration errors",
           "Review the error message above for specific guidance"]
        user_fixable := true }

/-! ## The orchestrator (`safe_cdk_synth_with_fallbacks`)

The subprocess boundary (`subprocess.run` per strategy) is embedded as a
list of `ProcOutcome`, one per strategy in ladder order: what the
environment would answer for each strategy the orchestrator chooses to
invoke. -/

/-- Outcome of one `subprocess.run` of the synth tool: a completed process
(return code, captured stderr, whether the `cdk.out` directory exists,
the `*.template.json` artifacts found there), a `TimeoutExpired`, or another
exception carrying its string rendering. -/
inductive ProcOutcome where
  | completed (returncode : Int) (stderr : String)
      (cdkOutExists : Bool) (templates : List String)
  | timeoutExpired
  | exc (msg : String)
  deriving Repr, DecidableEq

/-- One entry of the orchestrator's attempt log (`attempt_result`). -/
structure AttemptRecord where
  strategy : String
  success : Bool
  error : Option String
  deriving Repr, DecidableEq

/-- The orchestrator's result dictionary. -/
structure SynthResult where
  success : Bool
  strategy_used : Option String
  templates : List String
  warnings : List String
  error : Option ErrorDiagnosis
  attempts : List AttemptRecord
  deriving Repr, DecidableEq

/-- The fixed strategy ladder of `safe_cdk_synth_with_fallbacks`. -/
def strategies : List (String × List String) :=
  [("standard", ["cdk", "synth", "--quiet"]),
   ("no-lookups", ["cdk", "synth", "--no-lookups", "--quiet"]),
   ("no-version", ["cdk", "synth", "--no-version-reporting", "--quiet"]),
   ("verbose", ["cdk", "synth"])]

/-- A single quote character, used in the fallback warning text. -/
def squote : String := String.mk ['\'']

/-- The warning appended when a non-standard strategy succeeds. -/
def fallbackWarning (strategy_name : String) : String :=
  "Used " ++ squote ++ strategy_name ++ squote
    ++ " strategy (standard synth failed)"

/-- The per-strategy loop body of `safe_cdk_synth_with_fallbacks`,
threading the accumulated attempt log; the base case is the
all-strategies-failed epilogue (classification of the last attempt's
recorded error). -/
def synthGo (language : String) :
    List ((String × List String) × ProcOutcome) → List AttemptRecord →
    SynthResult
  | [], attempts =>
    let last_error : Option String :=
      match attempts.getLast? with
      | some a => a.error
      | none => some "Unknown error"
    { success := false, strategy_used := none, templates := [],
      warnings := [], error := some (classify_cdk_error last_error language),
      attempts := attempts }
  | ((strategy_name, _command), outcome) :: rest, attempts =>
    match outcome with
    | .completed returncode stderr cdkOutExists tmpls =>
      if returncode = 0 then
        if cdkOutExists then
          if tmpls ≠ [] then
            { success := true, strategy_used := some strategy_name,
              templates := tmpls,
              warnings :=
                if strategy_name ≠ "standard" then
                  [fallbackWarning strategy_name]
                else [],
              error := none,
              attempts := attempts ++ [⟨strategy_name, true, none⟩] }
          else
            synthGo language rest (attempts ++ [⟨strategy_name, false, none⟩])
        else
          synthGo language rest (attempts ++ [⟨strategy_name, false, none⟩])
      else
        if is_fatal_cdk_error stderr then
          { success := false, strategy_used := none, templates := [],
            warnings := [],
            error := some (classify_cdk_error (some stderr) language),
            attempts :=
              attempts ++ [⟨strategy_name, false, some (strTake stderr 200)⟩] }
        else
          synthGo language rest
            (attempts ++ [⟨strategy_name, false, some (strTake stderr 200)⟩])
    | .timeoutExpired =>
      synthGo language rest
        (attempts ++ [⟨strategy_name, false, some "Timeout (>5 minutes)"⟩])
    | .exc msg =>
      synthGo language rest (attempts ++ [⟨strategy_name, false, some msg⟩])

/-- `safe_cdk_synth_with_fallbacks(cdk_root_path, language)`, with the
environment's answers `runs` supplied one per strategy. -/
def safe_cdk_synth_with_fallbacks (runs : List ProcOutcome)
    (language : String) : SynthResult :=
  synthGo language (strategies.zip runs) []

/-- An outcome on which the loop of `safe_cdk_synth_with_fallbacks`
continues to the next strategy: a zero exit without discoverable
artifacts, a non-zero exit with a non-fatal diagnostic, a timeout, or
another exception. -/
def retryableOutcome : ProcOutcome → Bool
  | .completed returncode stderr cdkOutExists tmpls =>
    if returncode = 0 then !(cdkOutExists && !tmpls.isEmpty)
    else !is_fatal_cdk_error stderr
  | .timeoutExpired => true
  | .exc _ => true

/-! ## JSON values and Python dict operations

A synthesized template is a Python dict produced by `json.load`; we embed
JSON values with dicts as insertion-ordered association lists. -/

/-- A JSON value; `obj` keeps key insertion order, as Python dicts do. -/
inductive JVal where
  | null : JVal
  | bool : Bool → JVal
  | num : Int → JVal
  | str : String → JVal
  | arr : List JVal → JVal
  | obj : List (String × JVal) → JVal

/-- Python `x == s` for a string literal `s`: true exactly when `x` is an
equal string (`==` across types is `False` in Python). -/
def isStrVal (x : Option JVal) (s : String) : Bool :=
  match x with
  | some (.str s') => s' = s
  | _ => false

/-- Python truthiness of a JSON value. -/
def JVal.truthy : JVal → Bool
  | .null => false
  | .bool b => b
  | .num n => n ≠ 0
  | .str s => s ≠ ""
  | .arr l => !l.isEmpty
  | .obj l => !l.isEmpty

/-- Python `d.get(k)` / `d[k]` on a dict (first binding). -/
def pyGet : List (String × JVal) → String → Option JVal
  | [], _ => none
  | (k', v) :: rest, k => if k' = k then some v else pyGet rest k

/-- Python `k in d` on a dict. -/
def hasKey : List (String × JVal) → String → Bool
  | [], _ => false
  | (k', _) :: rest, k => if k' = k then true else hasKey rest k

/-- Python `d[k] = v`: replace the binding in place if present, else
append at the end. -/
def dictSet : List (String × JVal) → String → JVal → List (String × JVal)
  | [], k, v => [(k, v)]
  | (k', v') :: rest, k, v =>
    if k' = k then (k, v) :: rest else (k', v') :: dictSet rest k v

/-- Python `del d[k]`: remove the binding. -/
def dictDel : List (String × JVal) → String → List (String × JVal)
  | [], _ => []
  | (k', v') :: rest, k =>
    if k' = k then rest else (k', v') :: dictDel rest k

/-- Whether an association list binds no key twice (always true of a
Python dict). -/
def nodupKeys : List (String × JVal) → Bool
  | [] => true
  | (k, _) :: rest => !hasKey rest k && nodupKeys rest

/-- Python `needle == x` elementwise over a list (`in` on Python lists). -/
def arrHasStr : List JVal → String → Bool
  | [], _ => false
  | v :: rest, s => isStrVal (some v) s || arrHasStr rest s

/-- Python `needle in container` for a string needle against an arbitrary
JSON value: key test on dicts, substring test on strings, membership on
arrays; `none` models the `TypeError` raised on the remaining types. -/
def pyIn (container : JVal) (needle : String) : Option Bool :=
  match container with
  | .obj l => some (hasKey l needle)
  | .str s => some (strHas s needle)
  | .arr l => some (arrHasStr l needle)
  | _ => none

/-- Python `del container[k]` for a string key: defined on dicts only;
`none` models the `TypeError` raised otherwise. -/
def pyDelKey (container : JVal) (k : String) : Option JVal :=
  match container with
  | .obj l => some (.obj (dictDel l k))
  | _ => none

/-! ## The template cleaner (`CDKTemplateCleaner`) -/

/-- `CDK_METADATA_RESOURCE_TYPE`. -/
def CDK_METADATA_RESOURCE_TYPE : String := "AWS::CDK::Metadata"

/-- `CDK_BOOTSTRAP_PARAM`. -/
def CDK_BOOTSTRAP_PARAM : String := "BootstrapVersion"

/-- `CDK_METADATA_CONDITION`. -/
def CDK_METADATA_CONDITION : String := "CDKMetadataAvailable"

/-- `CDK_BOOTSTRAP_RULE`. -/
def CDK_BOOTSTRAP_RULE : String := "CheckBootstrapVersion"

/-- `CDK_PATH_METADATA_KEY`. -/
def CDK_PATH_METADATA_KEY : String := "aws:cdk:path"

/-- The Metadata-stripping step for one surviving resource
(`_clean_resources`, the `"Metadata" in cleaned_resource and not
self.keep_resource_metadata` block).  `resource_def.copy()` is shallow,
so `del metadata[...]` mutates the shared Metadata dict of the input;
the first component is the cleaned copy, the second is the input
resource's fields after the call. -/
def cleanResourceMetaSt (keep_resource_metadata : Bool)
    (fields : List (String × JVal)) :
    Option (List (String × JVal) × List (String × JVal)) :=
  if keep_resource_metadata then some (fields, fields) else
  match pyGet fields "Metadata" with
  | none => some (fields, fields)
  | some metadata =>
    match pyIn metadata CDK_PATH_METADATA_KEY with
    | none => none
    | some keyIn =>
      match (if keyIn then pyDelKey metadata CDK_PATH_METADATA_KEY
             else some metadata) with
      | none => none
      | some metadata' =>
        let inputAfter :=
          if keyIn then dictSet fields "Metadata" metadata' else fields
        if metadata'.truthy = false then
          some (dictDel fields "Metadata", inputAfter)
        else
          some (dictSet fields "Metadata" metadata', inputAfter)

/-- `_clean_resources(resources)`: drops CDK metadata resources and
resources conditioned on the CDK metadata condition, strips resource
Metadata on the survivors.  Returns the cleaned dict together with the
state of the input dict after the call (the shallow per-resource copy
shares Metadata blocks, see `cleanResourceMetaSt`); `none` models an
exception (a resource definition that is not a dict, or a Metadata value
on which `in`/`del` raise). -/
def clean_resources_st (keep_resource_metadata : Bool) :
    List (String × JVal) →
    Option (List (String × JVal) × List (String × JVal))
  | [] => some ([], [])
  | (resource_name, resource_def) :: rest =>
    match resource_def with
    | .obj fields =>
      if isStrVal (pyGet fields "Type") CDK_METADATA_RESOURCE_TYPE then
        (clean_resources_st keep_resource_metadata rest).map
          (fun p => (p.1, (resource_name, resource_def) :: p.2))
      else if isStrVal (pyGet fields "Condition") CDK_METADATA_CONDITION then
        (clean_resources_st keep_resource_metadata rest).map
          (fun p => (p.1, (resource_name, resource_def) :: p.2))
      else
        match cleanResourceMetaSt keep_resource_metadata fields with
        | none => none
        | some (fields', fieldsAfter) =>
          (clean_resources_st keep_resource_metadata rest).map
            (fun p => ((resource_name, .obj fields') :: p.1,
                       (resource_name, .obj fieldsAfter) :: p.2))
    | _ => none

/-- The value part of `_clean_resources`. -/
def clean_resources (keep_resource_metadata : Bool)
    (resources : List (String × JVal)) : Option (List (String × JVal)) :=
  (clean_resources_st keep_resource_metadata resources).map (fun p => p.1)

/-- `_clean_parameters(parameters)`: drops the bootstrap parameter by
name and any dict-valued parameter whose Description contains the CDK
skip marker; `none` models the `TypeError` raised when `in` is applied
to an unsupported Description value. -/
def clean_parameters : List (String × JVal) → Option (List (String × JVal))
  | [] => some []
  | (param_name, param_def) :: rest =>
    if param_name = CDK_BOOTSTRAP_PARAM then clean_parameters rest
    else
      match param_def with
      | .obj fields =>
        match pyIn ((pyGet fields "Description").getD (.str ""))
            "[cdk:skip]" with
        | none => none
        | some true => clean_parameters rest
        | some false =>
          (clean_parameters rest).map (fun l => (param_name, param_def) :: l)
      | _ => (clean_parameters rest).map (fun l => (param_name, param_def) :: l)

/-- `_clean_conditions(conditions)`: drops the CDK metadata condition by
exact name. -/
def clean_conditions : List (String × JVal) → List (String × JVal)
  | [] => []
  | (condition_name, condition_def) :: rest =>
    if condition_name = CDK_METADATA_CONDITION then clean_conditions rest
    else (condition_name, condition_def) :: clean_conditions rest

/-- `_process_section(section_name, content)`.  The `Rules` branch
returns Python `None` (it is unreachable from `clean_template`, whose
section list does not contain `Rules`); sections whose cleaner requires
a dict yield `none` (an exception) on non-dict content. -/
def process_section (keep_resource_metadata : Bool) (section_name : String)
    (content : JVal) : Option JVal :=
  if section_name = "Resources" then
    match content with
    | .obj l => (clean_resources keep_resource_metadata l).map JVal.obj
    | _ => none
  else if section_name = "Parameters" then
    match content with
    | .obj l => (clean_parameters l).map JVal.obj
    | _ => none
  else if section_name = "Conditions" then
    match content with
    | .obj l => some (.obj (clean_conditions l))
    | _ => none
  else if section_name = "Rules" then some .null
  else some content

/-- The standard CloudFormation section names copied by
`clean_template`, in its fixed order. -/
def standard_sections : List String :=
  ["AWSTemplateFormatVersion", "Description", "Metadata", "Parameters",
   "Mappings", "Conditions", "Transform", "Resources", "Outputs"]

/-- The section-copying loop of `clean_template`: for each listed section
present in the template, the processed content, keyed in list order. -/
def collectSections (keep_resource_metadata : Bool)
    (template : List (String × JVal)) :
    List String → Option (List (String × JVal))
  | [] => some []
  | sct :: rest =>
    match pyGet template sct with
    | none => collectSections keep_resource_metadata template rest
    | some content =>
      match process_section keep_resource_metadata sct content with
      | none => none
      | some v =>
        (collectSections keep_resource_metadata template rest).map
          (fun l => (sct, v) :: l)

/-- `clean_template(template)`: copy and process the standard sections,
then drop the sections whose processed content is falsy. -/
def clean_template (keep_resource_metadata : Bool)
    (template : List (String × JVal)) : Option (List (String × JVal)) :=
  (collectSections keep_resource_metadata template standard_sections).map
    (fun cleaned => cleaned.filter (fun p => p.2.truthy))

/-- `clean_cdk_template(template)`: the module-level convenience entry
point, `CDKTemplateCleaner()` with the default
`keep_resource_metadata = False`. -/
def clean_cdk_template (template : List (String × JVal)) :
    Option (List (String × JVal)) :=
  clean_template false template

/-- `clean_template` together with the state of the input template object
after the call: the only mutation performed by `clean_template` is the
in-place Metadata stripping inside `_clean_resources` (see
`clean_resources_st`), reflected into the `Resources` binding. -/
def clean_template_st (keep_resource_metadata : Bool)
    (template : List (String × JVal)) :
    Option (List (String × JVal) × List (String × JVal)) :=
  match clean_template keep_resource_metadata template with
  | none => none
  | some cleaned =>
    let templateAfter :=
      match pyGet template "Resources" with
      | some (.obj resources) =>
        match clean_resources_st keep_resource_metadata resources with
        | some (_, resourcesAfter) =>
          dictSet template "Resources" (.obj resourcesAfter)
        | none => template
      | _ => template
    some (cleaned, templateAfter)

/-- `is_cdk_template`'s scan of `Resources` values: Python returns `True`
at the first CDK metadata resource and raises (`none`) at the first
non-dict value reached before one. -/
def anyCdkType : List JVal → Option Bool
  | [] => some false
  | resource :: rest =>
    match resource with
    | .obj fields =>
      if isStrVal (pyGet fields "Type") CDK_METADATA_RESOURCE_TYPE then
        some true
      else anyCdkType rest
    | _ => none

/-- `is_cdk_template(template)`: CDK metadata resource, bootstrap
parameter, or bootstrap rule present.  `none` models the exceptions the
Python code raises on malformed section values. -/
def is_cdk_template (template : List (String × JVal)) : Option Bool :=
  match (pyGet template "Resources").getD (.obj []) with
  | .obj resources =>
    match anyCdkType (resources.map (fun p => p.2)) with
    | none => none
    | some true => some true
    | some false =>
      match pyIn ((pyGet template "Parameters").getD (.obj []))
          CDK_BOOTSTRAP_PARAM with
      | none => none
      | some true => some true
      | some false =>
        pyIn ((pyGet template "Rules").getD (.obj [])) CDK_BOOTSTRAP_RULE
  | _ => none

/-- Well-formedness of one resource definition as a Python value: its
dict binds each key once, as does its Metadata dict if it has one.  Any
resource dict obtained from `json.load` satisfies this. -/
def resourceWF (resource_def : JVal) : Bool :=
  match resource_def with
  | .obj fields =>
    nodupKeys fields &&
    (match pyGet fields "Metadata" with
     | some (.obj m) => nodupKeys m
     | _ => true)
  | _ => true

/-- Well-formedness of a template's resource dicts (see `resourceWF`);
always true of a template parsed from JSON. -/
def templateWF (template : List (String × JVal)) : Bool :=
  match pyGet template "Resources" with
  | some (.obj resources) => resources.all (fun p => resourceWF p.2)
  | _ => true

/-! ## Classifier lemmas and claims -/

/-- A nonempty needle never occurs in the empty string. -/
theorem strHas_empty_haystack (needle : String) (h : needle.data ≠ []) :
    strHas "" needle = false := by
  unfold strHas chHasSub
  simp [List.isEmpty_iff, h]

/-- Every classification carries a nonempty message and at least one
recommendation. -/
theorem classify_message_recs_nonempty (error_msg : Option String)
    (language : String) :
    (classify_cdk_error error_msg language).message ≠ "" ∧
    (classify_cdk_error error_msg language).recommendations ≠ [] := by
  cases error_msg with
  | none => simp [classify_cdk_error]
  | some msg =>
    simp only [classify_cdk_error]
    split_ifs <;> simp

/-- Claim C7: a diagnostic containing an unresolved-module marker
(`ModuleNotFoundError` / `Cannot find module`) and no earlier-priority
runtime marker classifies as `missing_dependencies` with
`user_fixable = true`; a diagnostic containing a permission-denied marker
(`not authorized` / `AccessDenied`) and no earlier-priority marker
classifies as `aws_credentials` (the spec's `credential_unavailable`
category) with `user_fixable = false`. -/
theorem classify_module_and_credential_markers (d language : String) :
    ((strHas d "ModuleNotFoundError" = true ∨ strHas d "Cannot find module" = true) →
      strHas d "nodejs22.x" = false → strHas d "E3030" = false →
      (classify_cdk_error (some d) language).type = "missing_dependencies" ∧
      (classify_cdk_error (some d) language).user_fixable = true) ∧
    ((strHas d "not authorized" = true ∨ strHas d "AccessDenied" = true) →
      strHas d "nodejs22.x" = false → strHas d "E3030" = false →
      strHas d "ModuleNotFoundError" = false → strHas d "Cannot find module" = false →
      (classify_cdk_error (some d) language).type = "aws_credentials" ∧
      (classify_cdk_error (some d) language).user_fixable = false) := by
  constructor
  · intro hmod h1 h2
    have hd : d ≠ "" := by
      intro he
      subst he
      rcases hmod with h | h <;> rw [strHas_empty_haystack _ (by decide)] at h <;>
        exact Bool.false_ne_true h
    have hmarker : (strHas d "ModuleNotFoundError" || strHas d "Cannot find module") = true := by
      rcases hmod with h | h <;> simp [h]
    simp [classify_cdk_error, hd, h1, h2, hmarker]
  · intro hauth h1 h2 h3 h4
    have hd : d ≠ "" := by
      intro he
      subst he
      rcases hauth with h | h <;> rw [strHas_empty_haystack _ (by decide)] at h <;>
        exact Bool.false_ne_true h
    have hmarker : (strHas d "not authorized" || strHas d "AccessDenied") = true := by
      rcases hauth with h | h <;> simp [h]
    simp [classify_cdk_error, hd, h1, h2, h3, h4, hmarker]

/-- Witness for `classify_module_and_credential_markers` at concrete
diagnostics. -/
theorem classify_module_and_credential_markers_witness :
    ((classify_cdk_error (some "ModuleNotFoundError: No module named x") "python").type
        = "missing_dependencies" ∧
      (classify_cdk_error (some "ModuleNotFoundError: No module named x") "python").user_fixable
        = true) ∧
    ((classify_cdk_error (some "User is not authorized to perform sts:AssumeRole") "python").type
        = "aws_credentials" ∧
      (classify_cdk_error (some "User is not authorized to perform sts:AssumeRole") "python").user_fixable
        = false) :=
  ⟨(classify_module_and_credential_markers "ModuleNotFoundError: No module named x"
      "python").1 (Or.inl (by decide)) (by decide) (by decide),
   (classify_module_and_credential_markers "User is not authorized to perform sts:AssumeRole"
      "python").2 (Or.inl (by decide)) (by decide) (by decide) (by decide) (by decide)⟩

/-- Counterexample to claim C3 as stated: `SyntaxError` is a fatal marker
of `_is_fatal_cdk_error`, yet `classify_cdk_error` places a diagnostic
consisting of it in the generic `synthesis_error` category (the spec's
generic `unknown_or_syntax`), not in a specific one. -/
theorem fatal_marker_generic_counterexample :
    is_fatal_cdk_error "SyntaxError" = true ∧
    (classify_cdk_error (some "SyntaxError") "python").type = "synthesis_error" := by
  exact ⟨by decide, by decide⟩

/-- Claim C3 (amended): of the fatal markers of `_is_fatal_cdk_error`,
exactly the unresolved-module ones are recognized specifically by
`classify_cdk_error` — a diagnostic with a module marker (and no
earlier-priority runtime marker) is fatal and classified
`missing_dependencies`, while a fatal diagnostic carrying none of the
classifier's markers falls to the generic `synthesis_error` category;
and a diagnostic containing an authorization marker and none of the
fatal markers is never fatal. -/
theorem fatal_markers_vs_classify (d language : String) :
    ((strHas d "ModuleNotFoundError" = true ∨ strHas d "Cannot find module" = true) →
      strHas d "nodejs22.x" = false → strHas d "E3030" = false →
      is_fatal_cdk_error d = true ∧
      (classify_cdk_error (some d) language).type = "missing_dependencies") ∧
    (is_fatal_cdk_error d = true →
      strHas d "nodejs22.x" = false → strHas d "E3030" = false →
      strHas d "ModuleNotFoundError" = false → strHas d "Cannot find module" = false →
      strHas d "not authorized" = false → strHas d "AccessDenied" = false →
      strHas (strLower d) "timeout" = false → strHas d "Timeout" = false →
      (classify_cdk_error (some d) language).type = "synthesis_error") ∧
    ((strHas d "not authorized" = true ∨ strHas d "AccessDenied" = true) →
      (∀ p ∈ fatal_patterns, strHas d p = false) →
      is_fatal_cdk_error d = false) := by
  refine ⟨?_, ?_, ?_⟩
  · intro hmod h1 h2
    have hd : d ≠ "" := by
      intro he
      subst he
      rcases hmod with h | h <;> rw [strHas_empty_haystack _ (by decide)] at h <;>
        exact Bool.false_ne_true h
    have hmarker : (strHas d "ModuleNotFoundError" || strHas d "Cannot find module") = true := by
      rcases hmod with h | h <;> simp [h]
    constructor
    · rcases hmod with h | h <;>
        simp [is_fatal_cdk_error, fatal_patterns, h]
    · simp [classify_cdk_error, hd, h1, h2, hmarker]
  · intro hfatal h1 h2 h3 h4 h5 h6 h7 h8
    have hd : d ≠ "" := by
      intro he
      subst he
      rw [show is_fatal_cdk_error "" = false from by decide] at hfatal
      exact Bool.false_ne_true hfatal
    simp [classify_cdk_error, hd, h1, h2, h3, h4, h5, h6, h7, h8]
  · intro _ hnone
    simp only [is_fatal_cdk_error, List.any_eq_false]
    intro p hp
    simp [hnone p hp]

/-- Witness for `fatal_markers_vs_classify` at concrete diagnostics. -/
theorem fatal_markers_vs_classify_witness :
    (is_fatal_cdk_error "ModuleNotFoundError: No module named x" = true ∧
      (classify_cdk_error (some "ModuleNotFoundError: No module named x") "python").type
        = "missing_dependencies") ∧
    (classify_cdk_error (some "ENOENT: no such device") "python").type = "synthesis_error" ∧
    is_fatal_cdk_error "AccessDenied" = false :=
  ⟨(fatal_markers_vs_classify "ModuleNotFoundError: No module named x" "python").1
      (Or.inl (by decide)) (by decide) (by decide),
   (fatal_markers_vs_classify "ENOENT: no such device" "python").2.1
      (by decide) (by decide) (by decide) (by decide) (by decide) (by decide)
      (by decide) (by decide) (by decide),
   (fatal_markers_vs_classify "AccessDenied" "python").2.2
      (Or.inr (by decide)) (by decide)⟩

/-! ## Orchestrator claims -/

/-- Claim C2: a first-strategy failure whose diagnostic matches a fatal
pattern yields `success = false` with exactly one attempt record, and the
result does not depend on what strategies 2-4 would have returned (they
are never invoked). -/
theorem fatal_first_attempt_short_circuits (d : String) (rc : Int) (e : Bool)
    (tm : List String) (rest : List ProcOutcome) (language : String)
    (hrc : rc ≠ 0) (hfatal : is_fatal_cdk_error d = true) :
    (safe_cdk_synth_with_fallbacks (.completed rc d e tm :: rest) language).success
        = false ∧
    (safe_cdk_synth_with_fallbacks (.completed rc d e tm :: rest) language).attempts
        = [⟨"standard", false, some (strTake d 200)⟩] ∧
    (∀ rest' : List ProcOutcome,
      safe_cdk_synth_with_fallbacks (.completed rc d e tm :: rest') language
        = safe_cdk_synth_with_fallbacks (.completed rc d e tm :: rest) language) := by
  refine ⟨?_, ?_, ?_⟩ <;>
    simp [safe_cdk_synth_with_fallbacks, strategies, synthGo, hrc, hfatal]

/-- Witness for `fatal_first_attempt_short_circuits`. -/
theorem fatal_first_attempt_short_circuits_witness :
    (safe_cdk_synth_with_fallbacks
        (.completed 1 "SyntaxError" true [] ::
          [.completed 0 "" true ["a.template.json"]]) "python").success = false ∧
    (safe_cdk_synth_with_fallbacks
        (.completed 1 "SyntaxError" true [] ::
          [.completed 0 "" true ["a.template.json"]]) "python").attempts
      = [⟨"standard", false, some (strTake "SyntaxError" 200)⟩] ∧
    (∀ rest' : List ProcOutcome,
      safe_cdk_synth_with_fallbacks (.completed 1 "SyntaxError" true [] :: rest') "python"
        = safe_cdk_synth_with_fallbacks
            (.completed 1 "SyntaxError" true [] ::
              [.completed 0 "" true ["a.template.json"]]) "python") :=
  fatal_first_attempt_short_circuits "SyntaxError" 1 true []
    [.completed 0 "" true ["a.template.json"]] "python" (by decide) (by decide)

/-- The structural invariant of every result the loop can return:
success carries artifacts and no diagnosis; failure carries a diagnosis
with a nonempty message and at least one recommendation. -/
theorem synthGo_result_invariant (language : String) :
    ∀ (items : List ((String × List String) × ProcOutcome))
      (attempts : List AttemptRecord),
      ((synthGo language items attempts).success = true →
        (synthGo language items attempts).templates ≠ [] ∧
        (synthGo language items attempts).error = none) ∧
      ((synthGo language items attempts).success = false →
        ∃ diag, (synthGo language items attempts).error = some diag ∧
          diag.message ≠ "" ∧ diag.recommendations ≠ []) := by
  intro items
  induction items with
  | nil =>
    intro attempts
    refine ⟨fun h => by simp [synthGo] at h, fun _ => ⟨_, rfl, ?_⟩⟩
    exact classify_message_recs_nonempty _ _
  | cons hd tl ih =>
    intro attempts
    obtain ⟨⟨strategy_name, command⟩, outcome⟩ := hd
    cases outcome with
    | completed rc stderr e tm =>
      by_cases hrc : rc = 0
      · by_cases he : e = true
        · by_cases htm : tm = []
          · simpa [synthGo, hrc, he, htm] using ih _
          · refine ⟨fun _ => ⟨by simp [synthGo, hrc, he, htm], by
              simp [synthGo, hrc, he, htm]⟩, fun h => ?_⟩
            simp [synthGo, hrc, he, htm] at h
        · have he' : e = false := by simpa using he
          simpa [synthGo, hrc, he'] using ih _
      · by_cases hf : is_fatal_cdk_error stderr = true
        · refine ⟨fun h => by simp [synthGo, hrc, hf] at h, fun _ =>
            ⟨classify_cdk_error (some stderr) language, ?_,
             classify_message_recs_nonempty _ _⟩⟩
          simp [synthGo, hrc, hf]
        · have hf' : is_fatal_cdk_error stderr = false := by simpa using hf
          simpa [synthGo, hrc, hf'] using ih _
    | timeoutExpired => simpa [synthGo] using ih _
    | exc msg => simpa [synthGo] using ih _

/-- Claim C4: every orchestrator result satisfies — success implies a
nonempty template list and no diagnosis; failure implies a diagnosis
whose message is nonempty and whose recommendations are nonempty. -/
theorem synth_result_success_failure_invariant (runs : List ProcOutcome)
    (language : String) :
    ((safe_cdk_synth_with_fallbacks runs language).success = true →
      (safe_cdk_synth_with_fallbacks runs language).templates ≠ [] ∧
      (safe_cdk_synth_with_fallbacks runs language).error = none) ∧
    ((safe_cdk_synth_with_fallbacks runs language).success = false →
      ∃ diag, (safe_cdk_synth_with_fallbacks runs language).error = some diag ∧
        diag.message ≠ "" ∧ diag.recommendations ≠ []) :=
  synthGo_result_invariant language (strategies.zip runs) []

/-- Witness for `synth_result_success_failure_invariant`. -/
theorem synth_result_success_failure_invariant_witness :
    ((safe_cdk_synth_with_fallbacks [.timeoutExpired] "python").success = true →
      (safe_cdk_synth_with_fallbacks [.timeoutExpired] "python").templates ≠ [] ∧
      (safe_cdk_synth_with_fallbacks [.timeoutExpired] "python").error = none) ∧
    ((safe_cdk_synth_with_fallbacks [.timeoutExpired] "python").success = false →
      ∃ diag, (safe_cdk_synth_with_fallbacks [.timeoutExpired] "python").error = some diag ∧
        diag.message ≠ "" ∧ diag.recommendations ≠ []) :=
  synth_result_success_failure_invariant [.timeoutExpired] "python"

/-- Claim C6: on any rung of the ladder, a zero tool exit with no
discoverable template artifact (no `cdk.out` directory, or an empty glob)
is recorded as a failed attempt (`success = false`, no stored error) and
the loop moves on to the next strategy — the same equation for every
strategy, accumulated log, and remaining ladder. -/
theorem zero_exit_without_artifacts_is_retryable (language strategy_name : String)
    (command : List String) (stderr : String) (e : Bool) (tm : List String)
    (rest : List ((String × List String) × ProcOutcome))
    (attempts : List AttemptRecord)
    (h : e = false ∨ tm = []) :
    synthGo language (((strategy_name, command), .completed 0 stderr e tm) :: rest)
        attempts
      = synthGo language rest (attempts ++ [⟨strategy_name, false, none⟩]) := by
  rcases h with h | h <;> subst h <;> simp [synthGo]

/-- Witness for `zero_exit_without_artifacts_is_retryable`. -/
theorem zero_exit_without_artifacts_is_retryable_witness :
    synthGo "python" ((("no-lookups", ["cdk", "synth", "--no-lookups", "--quiet"]),
        .completed 0 "" true []) :: []) []
      = synthGo "python" [] [⟨"no-lookups", false, none⟩] :=
  zero_exit_without_artifacts_is_retryable "python" "no-lookups"
    ["cdk", "synth", "--no-lookups", "--quiet"] "" true [] [] [] (Or.inr rfl)

/-- Any retryable outcome appends exactly one failed attempt record and
passes control to the rest of the ladder. -/
theorem synthGo_step_retryable (language strategy_name : String)
    (command : List String) (outcome : ProcOutcome)
    (h : retryableOutcome outcome = true)
    (rest : List ((String × List String) × ProcOutcome))
    (attempts : List AttemptRecord) :
    ∃ err, synthGo language (((strategy_name, command), outcome) :: rest) attempts
      = synthGo language rest (attempts ++ [⟨strategy_name, false, err⟩]) := by
  cases outcome with
  | completed rc stderr e tm =>
    by_cases hrc : rc = 0
    · subst hrc
      refine ⟨none, ?_⟩
      by_cases he : e = true
      · have htm : tm = [] := by
          by_contra hne
          simp [retryableOutcome, he, List.isEmpty_iff, hne] at h
        subst htm
        simp [synthGo, he]
      · have he' : e = false := by simpa using he
        subst he'
        simp [synthGo]
    · have hnf : is_fatal_cdk_error stderr = false := by
        simpa [retryableOutcome, hrc] using h
      exact ⟨some (strTake stderr 200), by simp [synthGo, hrc, hnf]⟩
  | timeoutExpired => exact ⟨some "Timeout (>5 minutes)", by simp [synthGo]⟩
  | exc msg => exact ⟨some msg, by simp [synthGo]⟩

/-- Exhausting the ladder over retryable outcomes appends one failed
record per rung and ends in the epilogue. -/
theorem synthGo_exhausts (language : String) :
    ∀ (items : List ((String × List String) × ProcOutcome))
      (attempts : List AttemptRecord),
      (∀ x ∈ items, retryableOutcome x.2 = true) →
      ∃ recs : List AttemptRecord, recs.length = items.length ∧
        synthGo language items attempts = synthGo language [] (attempts ++ recs) := by
  intro items
  induction items with
  | nil => exact fun attempts _ => ⟨[], rfl, by simp⟩
  | cons hd tl ih =>
    intro attempts hretry
    obtain ⟨⟨strategy_name, command⟩, outcome⟩ := hd
    obtain ⟨err, herr⟩ := synthGo_step_retryable language strategy_name command
      outcome (hretry _ (List.mem_cons_self _ _)) tl attempts
    obtain ⟨recs, hlen, hrec⟩ := ih (attempts ++ [⟨strategy_name, false, err⟩])
      (fun x hx => hretry x (List.mem_cons_of_mem _ hx))
    exact ⟨⟨strategy_name, false, err⟩ :: recs, by simp [hlen],
      by rw [herr, hrec]; simp⟩

/-- Claim C8: when all four strategies are attempted and each fails
retryably (no success, no fatal short-circuit), the final result is a
failure with four attempt records whose diagnosis is the classification
of the error text recorded for the last attempt. -/
theorem exhausted_ladder_classifies_last_attempt (runs : List ProcOutcome)
    (language : String) (hlen : runs.length = 4)
    (hretry : ∀ x ∈ runs, retryableOutcome x = true) :
    (safe_cdk_synth_with_fallbacks runs language).success = false ∧
    (safe_cdk_synth_with_fallbacks runs language).attempts.length = 4 ∧
    ∃ last, (safe_cdk_synth_with_fallbacks runs language).attempts.getLast? = some last ∧
      (safe_cdk_synth_with_fallbacks runs language).error
        = some (classify_cdk_error last.error language) := by
  have hzlen : (strategies.zip runs).length = 4 := by
    simp [strategies, hlen]
  obtain ⟨recs, hrlen, hrw⟩ := synthGo_exhausts language (strategies.zip runs) []
    (fun x hx => hretry x.2 (List.of_mem_zip hx).2)
  rw [hzlen] at hrlen
  have hne : recs ≠ [] := by
    intro h
    rw [h] at hrlen
    simp at hrlen
  have hsome : recs.getLast?.isSome := List.getLast?_isSome.mpr hne
  obtain ⟨last, hl⟩ := Option.isSome_iff_exists.mp hsome
  unfold safe_cdk_synth_with_fallbacks
  rw [hrw]
  refine ⟨by simp [synthGo], by simp [synthGo, hrlen], last, ?_, ?_⟩
  · simp [synthGo, hl]
  · simp [synthGo, hl]

/-- Witness for `exhausted_ladder_classifies_last_attempt` on a run where
every strategy times out or raises. -/
theorem exhausted_ladder_classifies_last_attempt_witness :
    (safe_cdk_synth_with_fallbacks
        [.timeoutExpired, .timeoutExpired, .timeoutExpired, .exc "boom"]
        "python").success = false ∧
    (safe_cdk_synth_with_fallbacks
        [.timeoutExpired, .timeoutExpired, .timeoutExpired, .exc "boom"]
        "python").attempts.length = 4 ∧
    ∃ last, (safe_cdk_synth_with_fallbacks
        [.timeoutExpired, .timeoutExpired, .timeoutExpired, .exc "boom"]
        "python").attempts.getLast? = some last ∧
      (safe_cdk_synth_with_fallbacks
          [.timeoutExpired, .timeoutExpired, .timeoutExpired, .exc "boom"]
          "python").error
        = some (classify_cdk_error last.error "python") :=
  exhausted_ladder_classifies_last_attempt
    [.timeoutExpired, .timeoutExpired, .timeoutExpired, .exc "boom"]
    "python" (by decide) (by decide)

/-! ## Dict lemmas -/

/-- Reading back the key just set. -/
theorem pyGet_dictSet_self (d : List (String × JVal)) (k : String) (v : JVal) :
    pyGet (dictSet d k v) k = some v := by
  induction d with
  | nil => simp [dictSet, pyGet]
  | cons hd tl ih =>
    obtain ⟨k', v'⟩ := hd
    by_cases h : k' = k <;> simp [dictSet, pyGet, h, ih]

/-- Setting one key leaves the others unchanged. -/
theorem pyGet_dictSet_other (d : List (String × JVal)) (k j : String) (v : JVal)
    (h : j ≠ k) : pyGet (dictSet d k v) j = pyGet d j := by
  have hkj : ¬k = j := fun he => h he.symm
  induction d with
  | nil => simp [dictSet, pyGet, hkj]
  | cons hd tl ih =>
    obtain ⟨k', v'⟩ := hd
    by_cases hk : k' = k
    · subst hk
      simp [dictSet, pyGet, hkj]
    · simp only [dictSet, if_neg hk]
      by_cases hj : k' = j <;> simp [pyGet, hj, ih]

/-- Setting the same key to the same value twice is setting it once. -/
theorem dictSet_dictSet (d : List (String × JVal)) (k : String) (v : JVal) :
    dictSet (dictSet d k v) k v = dictSet d k v := by
  induction d with
  | nil => simp [dictSet]
  | cons hd tl ih =>
    obtain ⟨k', v'⟩ := hd
    by_cases h : k' = k <;> simp [dictSet, h, ih]

/-- Deleting one key leaves the others unchanged. -/
theorem pyGet_dictDel_other (d : List (String × JVal)) (k j : String)
    (h : j ≠ k) : pyGet (dictDel d k) j = pyGet d j := by
  have hkj : ¬k = j := fun he => h he.symm
  induction d with
  | nil => simp [dictDel]
  | cons hd tl ih =>
    obtain ⟨k', v'⟩ := hd
    by_cases hk : k' = k
    · subst hk
      simp [dictDel, pyGet, hkj]
    · simp only [dictDel, if_neg hk]
      by_cases hj : k' = j <;> simp [pyGet, hj, ih]

/-- In a dict binding each key once, deletion removes the key. -/
theorem hasKey_dictDel_self (d : List (String × JVal)) (k : String)
    (h : nodupKeys d = true) : hasKey (dictDel d k) k = false := by
  induction d with
  | nil => simp [dictDel, hasKey]
  | cons hd tl ih =>
    obtain ⟨k', v'⟩ := hd
    rw [nodupKeys, Bool.and_eq_true, Bool.not_eq_true'] at h
    obtain ⟨hk', htl⟩ := h
    by_cases hk : k' = k
    · subst hk
      simpa [dictDel] using hk'
    · simp [dictDel, hasKey, hk, ih htl]

/-- A key that is not present reads as `none`. -/
theorem pyGet_eq_none_of_hasKey_false (d : List (String × JVal)) (k : String)
    (h : hasKey d k = false) : pyGet d k = none := by
  induction d with
  | nil => simp [pyGet]
  | cons hd tl ih =>
    obtain ⟨k', v'⟩ := hd
    by_cases hk : k' = k
    · simp [hasKey, hk] at h
    · simp only [hasKey, if_neg hk] at h
      simp [pyGet, hk, ih h]

/-- A successful read means the binding is a member. -/
theorem pyGet_mem (d : List (String × JVal)) (k : String) (v : JVal)
    (h : pyGet d k = some v) : (k, v) ∈ d := by
  induction d with
  | nil => simp [pyGet] at h
  | cons hd tl ih =>
    obtain ⟨k', v'⟩ := hd
    by_cases hk : k' = k
    · subst hk
      simp only [pyGet, if_true, eq_self_iff_true, Option.some.injEq] at h
      subst h
      exact List.mem_cons_self _ _
    · simp only [pyGet, if_neg hk] at h
      exact List.mem_cons_of_mem _ (ih h)

/-! ## Lemmas on the Metadata-stripping step -/

/-- The cleaned resource fields are the originals, the originals with the
Metadata binding deleted, or the originals with Metadata rebound. -/
theorem cleanResourceMeta_cases (keep : Bool) (fields f' a : List (String × JVal))
    (h : cleanResourceMetaSt keep fields = some (f', a)) :
    f' = fields ∨ f' = dictDel fields "Metadata" ∨
      ∃ m', f' = dictSet fields "Metadata" m' := by
  by_cases hkeep : keep = true
  · left
    simp [cleanResourceMetaSt, hkeep] at h
    exact h.1.symm
  · rw [Bool.not_eq_true] at hkeep
    subst hkeep
    cases hm : pyGet fields "Metadata" with
    | none =>
      simp [cleanResourceMetaSt, hm] at h
      exact Or.inl h.1.symm
    | some m =>
      cases hin : pyIn m CDK_PATH_METADATA_KEY with
      | none => simp [cleanResourceMetaSt, hm, hin] at h
      | some kin =>
        cases hdel : (if kin then pyDelKey m CDK_PATH_METADATA_KEY else some m) with
        | none => simp [cleanResourceMetaSt, hm, hin, hdel] at h
        | some m' =>
          by_cases htr : m'.truthy = false
          · simp [cleanResourceMetaSt, hm, hin, hdel, htr] at h
            exact Or.inr (Or.inl h.1.symm)
          · simp [cleanResourceMetaSt, hm, hin, hdel, htr] at h
            exact Or.inr (Or.inr ⟨m', h.1.symm⟩)

/-- Metadata stripping never touches another key of the resource. -/
theorem cleanResourceMeta_pyGet_other (keep : Bool)
    (fields f' a : List (String × JVal)) (j : String) (hj : j ≠ "Metadata")
    (h : cleanResourceMetaSt keep fields = some (f', a)) :
    pyGet f' j = pyGet fields j := by
  rcases cleanResourceMeta_cases keep fields f' a h with rfl | heq | ⟨m', heq⟩
  · rfl
  · rw [heq]
    exact pyGet_dictDel_other _ _ _ hj
  · rw [heq]
    exact pyGet_dictSet_other _ _ _ _ hj

/-- A resource with no Metadata binding is a fixed point of the step. -/
theorem cleanResourceMeta_of_no_metadata (fields : List (String × JVal))
    (h : pyGet fields "Metadata" = none) :
    cleanResourceMetaSt false fields = some (fields, fields) := by
  simp [cleanResourceMetaSt, h]

/-- After deleting the unique Metadata binding, the step is the identity. -/
theorem cleanResourceMeta_of_dictDel (fields : List (String × JVal))
    (hnf : nodupKeys fields = true) :
    cleanResourceMetaSt false (dictDel fields "Metadata")
      = some (dictDel fields "Metadata", dictDel fields "Metadata") :=
  cleanResourceMeta_of_no_metadata _
    (pyGet_eq_none_of_hasKey_false _ _ (hasKey_dictDel_self _ _ hnf))

/-- After rebinding Metadata to a truthy value free of the path key, the
step is the identity. -/
theorem cleanResourceMeta_of_dictSet (fields : List (String × JVal)) (m' : JVal)
    (hin : pyIn m' CDK_PATH_METADATA_KEY = some false)
    (htr : m'.truthy = true) :
    cleanResourceMetaSt false (dictSet fields "Metadata" m')
      = some (dictSet fields "Metadata" m', dictSet fields "Metadata" m') := by
  simp [cleanResourceMetaSt, pyGet_dictSet_self, hin, htr, dictSet_dictSet]

/-- On a well-formed resource, the Metadata-stripping step is idempotent:
its output is a fixed point. -/
theorem cleanResourceMeta_fixpoint (fields f' a : List (String × JVal))
    (hwf : resourceWF (.obj fields) = true)
    (h : cleanResourceMetaSt false fields = some (f', a)) :
    cleanResourceMetaSt false f' = some (f', f') := by
  unfold resourceWF at hwf
  rw [Bool.and_eq_true] at hwf
  obtain ⟨hnf, hmwf⟩ := hwf
  cases hm : pyGet fields "Metadata" with
  | none =>
    simp [cleanResourceMetaSt, hm] at h
    rw [← h.1]
    exact cleanResourceMeta_of_no_metadata _ hm
  | some m =>
    rw [hm] at hmwf
    cases m with
    | obj ml =>
      have hnm : nodupKeys ml = true := hmwf
      by_cases hk : hasKey ml CDK_PATH_METADATA_KEY = true
      · by_cases hdl : dictDel ml CDK_PATH_METADATA_KEY = []
        · simp [cleanResourceMetaSt, hm, pyIn, hk, pyDelKey, JVal.truthy, hdl] at h
          rw [← h.1]
          exact cleanResourceMeta_of_dictDel _ hnf
        · simp [cleanResourceMetaSt, hm, pyIn, hk, pyDelKey, JVal.truthy,
            List.isEmpty_iff, hdl] at h
          rw [← h.1]
          exact cleanResourceMeta_of_dictSet _ _
            (by simp [pyIn, hasKey_dictDel_self ml _ hnm])
            (by simp [JVal.truthy, List.isEmpty_iff, hdl])
      · rw [Bool.not_eq_true] at hk
        by_cases hml : ml = []
        · subst hml
          simp [cleanResourceMetaSt, hm, pyIn, hasKey, JVal.truthy] at h
          rw [← h.1]
          exact cleanResourceMeta_of_dictDel _ hnf
        · simp [cleanResourceMetaSt, hm, pyIn, hk, JVal.truthy,
            List.isEmpty_iff, hml] at h
          rw [← h.1]
          exact cleanResourceMeta_of_dictSet _ _ (by simp [pyIn, hk])
            (by simp [JVal.truthy, List.isEmpty_iff, hml])
    | str s =>
      by_cases hk : strHas s CDK_PATH_METADATA_KEY = true
      · simp [cleanResourceMetaSt, hm, pyIn, hk, pyDelKey] at h
      · rw [Bool.not_eq_true] at hk
        by_cases hs : s = ""
        · subst hs
          have hsf : strHas "" CDK_PATH_METADATA_KEY = false := by decide
          simp [cleanResourceMetaSt, hm, pyIn, hsf, JVal.truthy] at h
          rw [← h.1]
          exact cleanResourceMeta_of_dictDel _ hnf
        · simp [cleanResourceMetaSt, hm, pyIn, hk, JVal.truthy, hs] at h
          rw [← h.1]
          exact cleanResourceMeta_of_dictSet _ _ (by simp [pyIn, hk])
            (by simp [JVal.truthy, hs])
    | arr l =>
      by_cases hk : arrHasStr l CDK_PATH_METADATA_KEY = true
      · simp [cleanResourceMetaSt, hm, pyIn, hk, pyDelKey] at h
      · rw [Bool.not_eq_true] at hk
        by_cases hl : l = []
        · subst hl
          simp [cleanResourceMetaSt, hm, pyIn, arrHasStr, JVal.truthy] at h
          rw [← h.1]
          exact cleanResourceMeta_of_dictDel _ hnf
        · simp [cleanResourceMetaSt, hm, pyIn, hk, JVal.truthy,
            List.isEmpty_iff, hl] at h
          rw [← h.1]
          exact cleanResourceMeta_of_dictSet _ _ (by simp [pyIn, hk])
            (by simp [JVal.truthy, List.isEmpty_iff, hl])
    | null => simp [cleanResourceMetaSt, hm, pyIn] at h
    | bool b => simp [cleanResourceMetaSt, hm, pyIn] at h
    | num n => simp [cleanResourceMetaSt, hm, pyIn] at h

/-! ## Lemmas on `_clean_resources` -/

/-- Inversion of one step of `clean_resources_st`: the head resource is a
dict and is either skipped (a CDK metadata resource or conditioned on the
CDK metadata condition) or cleaned through the Metadata step. -/
theorem clean_resources_st_cons_inv (keep : Bool) (name : String) (rdef : JVal)
    (tl c a : List (String × JVal))
    (h : clean_resources_st keep ((name, rdef) :: tl) = some (c, a)) :
    ∃ fields c₁ a₁, rdef = JVal.obj fields ∧
      clean_resources_st keep tl = some (c₁, a₁) ∧
      ((isStrVal (pyGet fields "Type") CDK_METADATA_RESOURCE_TYPE = true ∨
          isStrVal (pyGet fields "Condition") CDK_METADATA_CONDITION = true) ∧
          c = c₁ ∧ a = (name, rdef) :: a₁ ∨
        ∃ f' fa, isStrVal (pyGet fields "Type") CDK_METADATA_RESOURCE_TYPE = false ∧
          isStrVal (pyGet fields "Condition") CDK_METADATA_CONDITION = false ∧
          cleanResourceMetaSt keep fields = some (f', fa) ∧
          c = (name, JVal.obj f') :: c₁ ∧ a = (name, JVal.obj fa) :: a₁) := by
  cases rdef with
  | obj fields =>
    refine ⟨fields, ?_⟩
    by_cases ht : isStrVal (pyGet fields "Type") CDK_METADATA_RESOURCE_TYPE = true
    · simp only [clean_resources_st, if_pos ht] at h
      cases htl : clean_resources_st keep tl with
      | none => rw [htl] at h; simp at h
      | some p =>
        rw [htl] at h
        obtain ⟨c₁, a₁⟩ := p
        simp only [Option.map_some', Option.some.injEq, Prod.mk.injEq] at h
        exact ⟨c₁, a₁, rfl, rfl, Or.inl ⟨Or.inl ht, h.1.symm, h.2.symm⟩⟩
    · rw [Bool.not_eq_true] at ht
      by_cases hc : isStrVal (pyGet fields "Condition") CDK_METADATA_CONDITION = true
      · simp only [clean_resources_st, ht, hc, Bool.false_eq_true, if_false,
          if_true, if_pos] at h
        cases htl : clean_resources_st keep tl with
        | none => rw [htl] at h; simp at h
        | some p =>
          rw [htl] at h
          obtain ⟨c₁, a₁⟩ := p
          simp only [Option.map_some', Option.some.injEq, Prod.mk.injEq] at h
          exact ⟨c₁, a₁, rfl, rfl, Or.inl ⟨Or.inr hc, h.1.symm, h.2.symm⟩⟩
      · rw [Bool.not_eq_true] at hc
        simp only [clean_resources_st, ht, hc, Bool.false_eq_true, if_false] at h
        cases hcm : cleanResourceMetaSt keep fields with
        | none => rw [hcm] at h; simp at h
        | some q =>
          rw [hcm] at h
          obtain ⟨f', fa⟩ := q
          cases htl : clean_resources_st keep tl with
          | none => rw [htl] at h; simp at h
          | some p =>
            rw [htl] at h
            obtain ⟨c₁, a₁⟩ := p
            simp only [Option.map_some', Option.some.injEq, Prod.mk.injEq] at h
            exact ⟨c₁, a₁, rfl, rfl,
              Or.inr ⟨f', fa, ht, hc, rfl, h.1.symm, h.2.symm⟩⟩
  | null => simp [clean_resources_st] at h
  | bool b => simp [clean_resources_st] at h
  | num n => simp [clean_resources_st] at h
  | str s => simp [clean_resources_st] at h
  | arr l => simp [clean_resources_st] at h

/-- On well-formed resources, `_clean_resources` is idempotent: cleaning
its own output changes nothing (and mutates nothing). -/
theorem clean_resources_fixpoint :
    ∀ (resources c a : List (String × JVal)),
      (∀ p ∈ resources, resourceWF p.2 = true) →
      clean_resources_st false resources = some (c, a) →
      clean_resources_st false c = some (c, c) := by
  intro resources
  induction resources with
  | nil =>
    intro c a _ h
    simp only [clean_resources_st, Option.some.injEq, Prod.mk.injEq] at h
    rw [← h.1]
    rfl
  | cons hd tl ih =>
    intro c a hwf h
    obtain ⟨name, rdef⟩ := hd
    obtain ⟨fields, c₁, a₁, rfl, htl, hcase⟩ :=
      clean_resources_st_cons_inv false name rdef tl c a h
    rcases hcase with ⟨_, hceq, _⟩ | ⟨f', fa, ht, hc, hcm, hceq, _⟩
    · rw [hceq]
      exact ih c₁ a₁ (fun q hq => hwf q (List.mem_cons_of_mem _ hq)) htl
    · rw [hceq]
      have hih := ih c₁ a₁ (fun q hq => hwf q (List.mem_cons_of_mem _ hq)) htl
      have htype : pyGet f' "Type" = pyGet fields "Type" :=
        cleanResourceMeta_pyGet_other false fields f' fa "Type" (by decide) hcm
      have hcond : pyGet f' "Condition" = pyGet fields "Condition" :=
        cleanResourceMeta_pyGet_other false fields f' fa "Condition" (by decide) hcm
      have hfix := cleanResourceMeta_fixpoint fields f' fa
        (hwf _ (List.mem_cons_self _ _)) hcm
      simp only [clean_resources_st, htype, hcond, ht, hc, Bool.false_eq_true,
        if_false, hfix, hih, Option.map_some']

/-- Every entry of the cleaned resources dict originates from an input
resource that passed both skip filters and went through the Metadata
step. -/
theorem clean_resources_origin :
    ∀ (resources c a : List (String × JVal)) (keep : Bool),
      clean_resources_st keep resources = some (c, a) →
      ∀ q ∈ c, ∃ name fields f' fa, q = (name, JVal.obj f') ∧
        (name, JVal.obj fields) ∈ resources ∧
        isStrVal (pyGet fields "Type") CDK_METADATA_RESOURCE_TYPE = false ∧
        isStrVal (pyGet fields "Condition") CDK_METADATA_CONDITION = false ∧
        cleanResourceMetaSt keep fields = some (f', fa) := by
  intro resources
  induction resources with
  | nil =>
    intro c a keep h q hq
    simp only [clean_resources_st, Option.some.injEq, Prod.mk.injEq] at h
    rw [← h.1] at hq
    simp at hq
  | cons hd tl ih =>
    intro c a keep h q hq
    obtain ⟨name, rdef⟩ := hd
    obtain ⟨fields, c₁, a₁, rfl, htl, hcase⟩ :=
      clean_resources_st_cons_inv keep name rdef tl c a h
    rcases hcase with ⟨_, hceq, _⟩ | ⟨f', fa, ht, hc, hcm, hceq, _⟩
    · rw [hceq] at hq
      obtain ⟨n, fl, f', fa, hqe, hmem, h1, h2, h3⟩ := ih c₁ a₁ keep htl q hq
      exact ⟨n, fl, f', fa, hqe, List.mem_cons_of_mem _ hmem, h1, h2, h3⟩
    · rw [hceq] at hq
      rcases List.mem_cons.mp hq with rfl | hq₁
      · exact ⟨name, fields, f', fa, rfl, List.mem_cons_self _ _, ht, hc, hcm⟩
      · obtain ⟨n, fl, g', ga, hqe, hmem, h1, h2, h3⟩ := ih c₁ a₁ keep htl q hq₁
        exact ⟨n, fl, g', ga, hqe, List.mem_cons_of_mem _ hmem, h1, h2, h3⟩

/-- Cleaning resources never adds a logical name and preserves the
relative order of the surviving names. -/
theorem clean_resources_names_sublist :
    ∀ (resources c a : List (String × JVal)) (keep : Bool),
      clean_resources_st keep resources = some (c, a) →
      List.Sublist (c.map Prod.fst) (resources.map Prod.fst) := by
  intro resources
  induction resources with
  | nil =>
    intro c a keep h
    simp only [clean_resources_st, Option.some.injEq, Prod.mk.injEq] at h
    rw [← h.1]
  | cons hd tl ih =>
    intro c a keep h
    obtain ⟨name, rdef⟩ := hd
    obtain ⟨fields, c₁, a₁, rfl, htl, hcase⟩ :=
      clean_resources_st_cons_inv keep name rdef tl c a h
    rcases hcase with ⟨_, hceq, _⟩ | ⟨f', fa, ht, hc, hcm, hceq, _⟩
    · rw [hceq]
      exact List.Sublist.cons _ (ih c₁ a₁ keep htl)
    · rw [hceq]
      exact List.Sublist.cons₂ _ (ih c₁ a₁ keep htl)

/-- When the Metadata dict of a processed resource contains the path
key, the input resource's fields after the step have Metadata rebound to
the dict with the key deleted (the shared-Metadata mutation). -/
theorem cleanResourceMeta_after_of_key (fields f' fa m : List (String × JVal))
    (hm : pyGet fields "Metadata" = some (.obj m))
    (hk : hasKey m CDK_PATH_METADATA_KEY = true)
    (h : cleanResourceMetaSt false fields = some (f', fa)) :
    fa = dictSet fields "Metadata" (.obj (dictDel m CDK_PATH_METADATA_KEY)) := by
  simp only [cleanResourceMetaSt, Bool.false_eq_true, if_false, hm, pyIn, hk,
    if_true, pyDelKey] at h
  split_ifs at h <;>
    simp only [Option.some.injEq, Prod.mk.injEq] at h <;> exact h.2.symm

/-- The post-call state of the input resources dict, positionally: a
processed resource whose Metadata dict holds the path key loses exactly
that key in place. -/
theorem clean_resources_after_get :
    ∀ (resources c a : List (String × JVal)) (i : Nat) (name : String)
      (fields m : List (String × JVal)),
      clean_resources_st false resources = some (c, a) →
      resources.get? i = some (name, .obj fields) →
      isStrVal (pyGet fields "Type") CDK_METADATA_RESOURCE_TYPE = false →
      isStrVal (pyGet fields "Condition") CDK_METADATA_CONDITION = false →
      pyGet fields "Metadata" = some (.obj m) →
      hasKey m CDK_PATH_METADATA_KEY = true →
      a.get? i = some (name, .obj (dictSet fields "Metadata"
        (.obj (dictDel m CDK_PATH_METADATA_KEY)))) := by
  intro resources
  induction resources with
  | nil =>
    intro c a i name fields m h hi
    simp at hi
  | cons hd tl ih =>
    intro c a i name fields m h hi ht hc hm hk
    obtain ⟨name', rdef⟩ := hd
    obtain ⟨fields', c₁, a₁, rfl, htl, hcase⟩ :=
      clean_resources_st_cons_inv false name' rdef tl c a h
    cases i with
    | zero =>
      simp only [List.get?, Option.some.injEq, Prod.mk.injEq] at hi
      obtain ⟨rfl, hfe⟩ := hi
      have hfe' : fields' = fields := JVal.obj.inj hfe
      subst hfe'
      rcases hcase with ⟨hskip, _, _⟩ | ⟨f', fa, _, _, hcm, _, haeq⟩
      · rcases hskip with h1 | h1
        · rw [ht] at h1
          exact absurd h1 (by simp)
        · rw [hc] at h1
          exact absurd h1 (by simp)
      · rw [haeq]
        simp only [List.get?, Option.some.injEq, Prod.mk.injEq]
        exact ⟨trivial, by rw [cleanResourceMeta_after_of_key fields' f' fa m hm hk hcm]⟩
    | succ i =>
      simp only [List.get?] at hi
      rcases hcase with ⟨_, _, haeq⟩ | ⟨f', fa, _, _, _, _, haeq⟩ <;>
        rw [haeq] <;>
        simpa only [List.get?] using ih c₁ a₁ i name fields m htl hi ht hc hm hk

/-! ## Lemmas on `_clean_parameters` and `_clean_conditions` -/

/-- Inversion of one step of `clean_parameters`: the head parameter is
either skipped (bootstrap name, or a dict whose Description carries the
skip marker) or kept unchanged. -/
theorem clean_parameters_cons_inv (param_name : String) (param_def : JVal)
    (tl : List (String × JVal)) (qs : List (String × JVal))
    (h : clean_parameters ((param_name, param_def) :: tl) = some qs) :
    ∃ qs₁, clean_parameters tl = some qs₁ ∧
      (qs = qs₁ ∨
        (param_name ≠ CDK_BOOTSTRAP_PARAM ∧
         (∀ fields, param_def = JVal.obj fields →
            pyIn ((pyGet fields "Description").getD (.str "")) "[cdk:skip]"
              = some false) ∧
         qs = (param_name, param_def) :: qs₁)) := by
  by_cases hb : param_name = CDK_BOOTSTRAP_PARAM
  · simp only [clean_parameters, if_pos hb] at h
    exact ⟨qs, h, Or.inl rfl⟩
  · cases param_def with
    | obj fields =>
      simp only [clean_parameters, if_neg hb] at h
      cases hin : pyIn ((pyGet fields "Description").getD (.str "")) "[cdk:skip]" with
      | none => rw [hin] at h; simp at h
      | some b =>
        rw [hin] at h
        cases b with
        | true => exact ⟨qs, h, Or.inl rfl⟩
        | false =>
          cases htl : clean_parameters tl with
          | none => rw [htl] at h; simp at h
          | some qs₁ =>
            rw [htl] at h
            simp only [Option.map_some', Option.some.injEq] at h
            exact ⟨qs₁, rfl, Or.inr ⟨hb, (fun fl hfl => by
              rw [← JVal.obj.inj hfl]; exact hin), h.symm⟩⟩
    | null =>
      simp only [clean_parameters, if_neg hb] at h
      cases htl : clean_parameters tl with
      | none => rw [htl] at h; simp at h
      | some qs₁ =>
        rw [htl] at h
        simp only [Option.map_some', Option.some.injEq] at h
        exact ⟨qs₁, rfl, Or.inr ⟨hb, (fun fl hfl => by simp at hfl), h.symm⟩⟩
    | bool v =>
      simp only [clean_parameters, if_neg hb] at h
      cases htl : clean_parameters tl with
      | none => rw [htl] at h; simp at h
      | some qs₁ =>
        rw [htl] at h
        simp only [Option.map_some', Option.some.injEq] at h
        exact ⟨qs₁, rfl, Or.inr ⟨hb, (fun fl hfl => by simp at hfl), h.symm⟩⟩
    | num v =>
      simp only [clean_parameters, if_neg hb] at h
      cases htl : clean_parameters tl with
      | none => rw [htl] at h; simp at h
      | some qs₁ =>
        rw [htl] at h
        simp only [Option.map_some', Option.some.injEq] at h
        exact ⟨qs₁, rfl, Or.inr ⟨hb, (fun fl hfl => by simp at hfl), h.symm⟩⟩
    | str v =>
      simp only [clean_parameters, if_neg hb] at h
      cases htl : clean_parameters tl with
      | none => rw [htl] at h; simp at h
      | some qs₁ =>
        rw [htl] at h
        simp only [Option.map_some', Option.some.injEq] at h
        exact ⟨qs₁, rfl, Or.inr ⟨hb, (fun fl hfl => by simp at hfl), h.symm⟩⟩
    | arr v =>
      simp only [clean_parameters, if_neg hb] at h
      cases htl : clean_parameters tl with
      | none => rw [htl] at h; simp at h
      | some qs₁ =>
        rw [htl] at h
        simp only [Option.map_some', Option.some.injEq] at h
        exact ⟨qs₁, rfl, Or.inr ⟨hb, (fun fl hfl => by simp at hfl), h.symm⟩⟩

/-- A kept parameter goes through `clean_parameters` unchanged. -/
theorem clean_parameters_keep_step (param_name : String) (param_def : JVal)
    (rest qs₁ : List (String × JVal))
    (hb : param_name ≠ CDK_BOOTSTRAP_PARAM)
    (hkeep : ∀ fields, param_def = JVal.obj fields →
      pyIn ((pyGet fields "Description").getD (.str "")) "[cdk:skip]"
        = some false)
    (hrest : clean_parameters rest = some qs₁) :
    clean_parameters ((param_name, param_def) :: rest)
      = some ((param_name, param_def) :: qs₁) := by
  cases param_def with
  | obj fields =>
    simp only [clean_parameters, if_neg hb, hkeep fields rfl, hrest,
      Option.map_some']
  | null => simp only [clean_parameters, if_neg hb, hrest, Option.map_some']
  | bool v => simp only [clean_parameters, if_neg hb, hrest, Option.map_some']
  | num v => simp only [clean_parameters, if_neg hb, hrest, Option.map_some']
  | str v => simp only [clean_parameters, if_neg hb, hrest, Option.map_some']
  | arr v => simp only [clean_parameters, if_neg hb, hrest, Option.map_some']

/-- `_clean_parameters` is idempotent. -/
theorem clean_parameters_fixpoint :
    ∀ (parameters qs : List (String × JVal)),
      clean_parameters parameters = some qs → clean_parameters qs = some qs := by
  intro parameters
  induction parameters with
  | nil =>
    intro qs h
    simp only [clean_parameters, Option.some.injEq] at h
    rw [← h]
    rfl
  | cons hd tl ih =>
    intro qs h
    obtain ⟨param_name, param_def⟩ := hd
    obtain ⟨qs₁, htl, hcase⟩ := clean_parameters_cons_inv param_name param_def tl qs h
    rcases hcase with hqe | ⟨hb, hkeep, hqe⟩
    · rw [hqe]
      exact ih qs₁ htl
    · rw [hqe]
      exact clean_parameters_keep_step param_name param_def qs₁ qs₁ hb hkeep
        (ih qs₁ htl)

/-- The cleaned parameters dict is a sublist of the input: no parameter
is added, no value changed, relative order preserved. -/
theorem clean_parameters_sublist :
    ∀ (parameters qs : List (String × JVal)),
      clean_parameters parameters = some qs → List.Sublist qs parameters := by
  intro parameters
  induction parameters with
  | nil =>
    intro qs h
    simp only [clean_parameters, Option.some.injEq] at h
    rw [← h]
  | cons hd tl ih =>
    intro qs h
    obtain ⟨param_name, param_def⟩ := hd
    obtain ⟨qs₁, htl, hcase⟩ := clean_parameters_cons_inv param_name param_def tl qs h
    rcases hcase with hqe | ⟨hb, _, hqe⟩ <;> rw [hqe]
    · exact List.Sublist.cons _ (ih qs₁ htl)
    · exact List.Sublist.cons₂ _ (ih qs₁ htl)

/-- The cleaned parameters dict never contains the bootstrap parameter. -/
theorem clean_parameters_no_bootstrap :
    ∀ (parameters qs : List (String × JVal)),
      clean_parameters parameters = some qs →
      hasKey qs CDK_BOOTSTRAP_PARAM = false := by
  intro parameters
  induction parameters with
  | nil =>
    intro qs h
    simp only [clean_parameters, Option.some.injEq] at h
    rw [← h]
    rfl
  | cons hd tl ih =>
    intro qs h
    obtain ⟨param_name, param_def⟩ := hd
    obtain ⟨qs₁, htl, hcase⟩ := clean_parameters_cons_inv param_name param_def tl qs h
    rcases hcase with hqe | ⟨hb, _, hqe⟩ <;> rw [hqe]
    · exact ih qs₁ htl
    · simp only [hasKey, if_neg hb]
      exact ih qs₁ htl

/-- `_clean_conditions` is idempotent. -/
theorem clean_conditions_fixpoint (conditions : List (String × JVal)) :
    clean_conditions (clean_conditions conditions) = clean_conditions conditions := by
  induction conditions with
  | nil => rfl
  | cons hd tl ih =>
    obtain ⟨condition_name, condition_def⟩ := hd
    by_cases hb : condition_name = CDK_METADATA_CONDITION
    · simp only [clean_conditions, if_pos hb, ih]
    · simp only [clean_conditions, if_neg hb, ih]

/-- The cleaned conditions dict is a sublist of the input. -/
theorem clean_conditions_sublist (conditions : List (String × JVal)) :
    List.Sublist (clean_conditions conditions) conditions := by
  induction conditions with
  | nil => simp [clean_conditions]
  | cons hd tl ih =>
    obtain ⟨condition_name, condition_def⟩ := hd
    by_cases hb : condition_name = CDK_METADATA_CONDITION
    · simp only [clean_conditions, if_pos hb]
      exact List.Sublist.cons _ ih
    · simp only [clean_conditions, if_neg hb]
      exact List.Sublist.cons₂ _ ih

/-! ## Lemmas on the section-copying loop of `clean_template` -/

/-- Key membership agrees with membership in the key list. -/
theorem hasKey_iff_mem_keys (d : List (String × JVal)) (k : String) :
    hasKey d k = true ↔ k ∈ d.map Prod.fst := by
  induction d with
  | nil => simp [hasKey]
  | cons hd tl ih =>
    obtain ⟨k', v'⟩ := hd
    by_cases hk : k' = k
    · subst hk
      simp [hasKey]
    · have hk2 : ¬k = k' := fun he => hk he.symm
      simp only [hasKey, if_neg hk, ih, List.map_cons, List.mem_cons]
      simp [hk2]

/-- A key outside the key list reads as `none`. -/
theorem pyGet_eq_none_of_not_mem_keys (d : List (String × JVal)) (k : String)
    (h : k ∉ d.map Prod.fst) : pyGet d k = none :=
  pyGet_eq_none_of_hasKey_false d k
    (by rw [← Bool.not_eq_true, hasKey_iff_mem_keys]; exact h)

/-- Every entry of the collected sections comes from processing the
template's binding of a listed section name. -/
theorem collectSections_origin :
    ∀ (ss : List String) (template ps : List (String × JVal)) (keep : Bool),
      collectSections keep template ss = some ps →
      ∀ q ∈ ps, q.1 ∈ ss ∧ ∃ v, pyGet template q.1 = some v ∧
        process_section keep q.1 v = some q.2 := by
  intro ss
  induction ss with
  | nil =>
    intro t ps k h q hq
    simp only [collectSections, Option.some.injEq] at h
    rw [← h] at hq
    simp at hq
  | cons s rest ih =>
    intro t ps k h q hq
    cases hg : pyGet t s with
    | none =>
      simp only [collectSections, hg] at h
      obtain ⟨hmem, hv⟩ := ih t ps k h q hq
      exact ⟨List.mem_cons_of_mem _ hmem, hv⟩
    | some content =>
      simp only [collectSections, hg] at h
      cases hp : process_section k s content with
      | none => simp only [hp] at h; exact Option.noConfusion h
      | some v =>
        simp only [hp] at h
        cases hrest : collectSections k t rest with
        | none => simp only [hrest, Option.map_none'] at h; exact Option.noConfusion h
        | some ps₁ =>
          rw [hrest] at h
          simp only [Option.map_some', Option.some.injEq] at h
          rw [← h] at hq
          rcases List.mem_cons.mp hq with rfl | hq₁
          · exact ⟨List.mem_cons_self _ _, content, hg, hp⟩
          · obtain ⟨hmem, hv⟩ := ih t ps₁ k hrest q hq₁
            exact ⟨List.mem_cons_of_mem _ hmem, hv⟩

/-- The collected section names form a sublist of the section list. -/
theorem collectSections_keys_sublist :
    ∀ (ss : List String) (template ps : List (String × JVal)) (keep : Bool),
      collectSections keep template ss = some ps →
      List.Sublist (ps.map Prod.fst) ss := by
  intro ss
  induction ss with
  | nil =>
    intro t ps k h
    simp only [collectSections, Option.some.injEq] at h
    rw [← h]
    simp
  | cons s rest ih =>
    intro t ps k h
    cases hg : pyGet t s with
    | none =>
      simp only [collectSections, hg] at h
      exact List.Sublist.cons _ (ih t ps k h)
    | some content =>
      simp only [collectSections, hg] at h
      cases hp : process_section k s content with
      | none => simp only [hp] at h; exact Option.noConfusion h
      | some v =>
        simp only [hp] at h
        cases hrest : collectSections k t rest with
        | none => simp only [hrest, Option.map_none'] at h; exact Option.noConfusion h
        | some ps₁ =>
          rw [hrest] at h
          simp only [Option.map_some', Option.some.injEq] at h
          rw [← h]
          exact List.Sublist.cons₂ _ (ih t ps₁ k hrest)

/-- If collection succeeded, processing succeeded on every listed section
present in the template. -/
theorem collectSections_process_at :
    ∀ (ss : List String) (template ps : List (String × JVal)) (keep : Bool)
      (s : String) (v : JVal),
      collectSections keep template ss = some ps → s ∈ ss →
      pyGet template s = some v → ∃ v', process_section keep s v = some v' := by
  intro ss
  induction ss with
  | nil =>
    intro t ps k s v _ hs
    simp at hs
  | cons s₀ rest ih =>
    intro t ps k s v h hs hg
    cases hg₀ : pyGet t s₀ with
    | none =>
      simp only [collectSections, hg₀] at h
      rcases List.mem_cons.mp hs with rfl | hs₁
      · rw [hg] at hg₀
        cases hg₀
      · exact ih t ps k s v h hs₁ hg
    | some content =>
      simp only [collectSections, hg₀] at h
      cases hp : process_section k s₀ content with
      | none => simp only [hp] at h; exact Option.noConfusion h
      | some v₀ =>
        simp only [hp] at h
        cases hrest : collectSections k t rest with
        | none => simp only [hrest, Option.map_none'] at h; exact Option.noConfusion h
        | some ps₁ =>
          rcases List.mem_cons.mp hs with rfl | hs₁
          · rw [hg] at hg₀
            obtain rfl := Option.some.inj hg₀
            exact ⟨v₀, hp⟩
          · exact ih t ps₁ k s v hrest hs₁ hg

/-- Collection ignores a leading binding whose key is not listed. -/
theorem collectSections_ignore_head :
    ∀ (ss : List String) (s : String) (v : JVal)
      (d : List (String × JVal)) (keep : Bool), s ∉ ss →
      collectSections keep ((s, v) :: d) ss = collectSections keep d ss := by
  intro ss
  induction ss with
  | nil => intro s v d k _; rfl
  | cons s₀ rest ih =>
    intro s v d k hs
    have hne : ¬s = s₀ := fun he => hs (he ▸ List.mem_cons_self _ _)
    have hg : pyGet ((s, v) :: d) s₀ = pyGet d s₀ := by
      simp [pyGet, hne]
    have hrest := ih s v d k (fun hm => hs (List.mem_cons_of_mem _ hm))
    rw [collectSections, hg, hrest, collectSections]

/-- Collecting an already-collected dict over a duplicate-free section
list whose entries are all processing fixed points returns it unchanged. -/
theorem collectSections_self :
    ∀ (ss : List String) (d : List (String × JVal)),
      ss.Nodup → List.Sublist (d.map Prod.fst) ss →
      (∀ q ∈ d, process_section false q.1 q.2 = some q.2) →
      collectSections false d ss = some d := by
  intro ss
  induction ss with
  | nil =>
    intro d _ hsub _
    have hd : d = [] := by
      have := List.sublist_nil.mp hsub
      simpa using this
    rw [hd]
    rfl
  | cons s rest ih =>
    intro d hnd hsub hfix
    rw [List.nodup_cons] at hnd
    obtain ⟨hs, hrestnd⟩ := hnd
    cases d with
    | nil =>
      have hg : pyGet ([] : List (String × JVal)) s = none := rfl
      simp only [collectSections, hg]
      exact ih [] hrestnd (by simp) (by simp)
    | cons hd d₂ =>
      obtain ⟨k₀, v₀⟩ := hd
      by_cases hk : k₀ = s
      · subst hk
        have hsub₂ : List.Sublist (d₂.map Prod.fst) rest := by
          have := hsub
          simp only [List.map_cons] at this
          exact (List.cons_sublist_cons).mp this
        have hg : pyGet ((k₀, v₀) :: d₂) k₀ = some v₀ := by simp [pyGet]
        have hfixh := hfix (k₀, v₀) (List.mem_cons_self _ _)
        simp only [collectSections, hg, hfixh,
          collectSections_ignore_head rest k₀ v₀ d₂ false hs,
          ih d₂ hrestnd hsub₂ (fun q hq => hfix q (List.mem_cons_of_mem _ hq)),
          Option.map_some']
      · have hsub' : List.Sublist (((k₀, v₀) :: d₂).map Prod.fst) rest := by
          rcases List.sublist_cons_iff.mp hsub with h | ⟨r, hr, _⟩
          · exact h
          · simp only [List.map_cons] at hr
            injection hr with h1 _
            exact absurd h1 hk
        have hg : pyGet ((k₀, v₀) :: d₂) s = none :=
          pyGet_eq_none_of_not_mem_keys _ _ (fun hm => hs (hsub'.subset hm))
        simp only [collectSections, hg]
        exact ih _ hrestnd hsub' hfix

/-- Processing a processed section again returns it unchanged (with
well-formed resources when the section is `Resources`). -/
theorem process_section_fixpoint (s : String) (v v' : JVal)
    (hwfres : s = "Resources" → ∀ l, v = JVal.obj l →
      ∀ p ∈ l, resourceWF p.2 = true)
    (h : process_section false s v = some v') :
    process_section false s v' = some v' := by
  by_cases hr : s = "Resources"
  · subst hr
    cases v with
    | obj l =>
      simp only [process_section, if_true, eq_self_iff_true] at h ⊢
      cases hc : clean_resources false l with
      | none => rw [hc] at h; exact Option.noConfusion h
      | some c =>
        rw [hc] at h
        simp only [Option.map_some', Option.some.injEq] at h
        unfold clean_resources at hc
        cases hst : clean_resources_st false l with
        | none => rw [hst] at hc; exact Option.noConfusion hc
        | some p =>
          rw [hst] at hc
          simp only [Option.map_some', Option.some.injEq] at hc
          obtain ⟨c₀, a₀⟩ := p
          have hcc := clean_resources_fixpoint l c₀ a₀
            (hwfres rfl l rfl) hst
          rw [← h, ← hc]
          simp only [clean_resources, hcc, Option.map_some']
    | null => simp [process_section] at h
    | bool b => simp [process_section] at h
    | num n => simp [process_section] at h
    | str str => simp [process_section] at h
    | arr l => simp [process_section] at h
  · by_cases hp : s = "Parameters"
    · subst hp
      cases v with
      | obj l =>
        simp only [process_section, if_true, eq_self_iff_true,
          if_neg (by decide : ¬("Parameters" = "Resources"))] at h ⊢
        cases hc : clean_parameters l with
        | none => rw [hc] at h; exact Option.noConfusion h
        | some qs =>
          rw [hc] at h
          simp only [Option.map_some', Option.some.injEq] at h
          rw [← h]
          simp only [clean_parameters_fixpoint l qs hc, Option.map_some']
      | null => simp [process_section] at h
      | bool b => simp [process_section] at h
      | num n => simp [process_section] at h
      | str str => simp [process_section] at h
      | arr l => simp [process_section] at h
    · by_cases hcnd : s = "Conditions"
      · subst hcnd
        cases v with
        | obj l =>
          simp only [process_section,
            if_neg (by decide : ¬("Conditions" = "Resources")),
            if_neg (by decide : ¬("Conditions" = "Parameters")), if_true,
            eq_self_iff_true, Option.some.injEq] at h ⊢
          rw [← h]
          simp only [clean_conditions_fixpoint l]
        | null => simp [process_section] at h
        | bool b => simp [process_section] at h
        | num n => simp [process_section] at h
        | str str => simp [process_section] at h
        | arr l => simp [process_section] at h
      · by_cases hru : s = "Rules"
        · subst hru
          simp only [process_section,
            if_neg (by decide : ¬("Rules" = "Resources")),
            if_neg (by decide : ¬("Rules" = "Parameters")),
            if_neg (by decide : ¬("Rules" = "Conditions")), if_true,
            Option.some.injEq] at h
          subst h
          rfl
        · simp only [process_section, if_neg hr, if_neg hp, if_neg hcnd,
            if_neg hru, Option.some.injEq] at h
          subst h
          simp [process_section, if_neg hr, if_neg hp, if_neg hcnd, if_neg hru]

/-- Claim C1: `clean` (with the default `keep_resource_metadata = False`)
is idempotent — cleaning the output of a successful clean returns it
unchanged. -/
theorem clean_cdk_template_idempotent (template C : List (String × JVal))
    (hwf : templateWF template = true)
    (h : clean_cdk_template template = some C) :
    clean_cdk_template C = some C := by
  unfold clean_cdk_template clean_template at h ⊢
  cases hcs : collectSections false template standard_sections with
  | none => rw [hcs] at h; exact Option.noConfusion h
  | some ps =>
    rw [hcs] at h
    simp only [Option.map_some', Option.some.injEq] at h
    have horigin := collectSections_origin standard_sections template ps false hcs
    have hkeys := collectSections_keys_sublist standard_sections template ps false hcs
    have hCsub : List.Sublist C ps := by
      rw [← h]
      exact List.filter_sublist _
    have hCkeys : List.Sublist (C.map Prod.fst) standard_sections :=
      (hCsub.map Prod.fst).trans hkeys
    have hfix : ∀ q ∈ C, process_section false q.1 q.2 = some q.2 := by
      intro q hq
      obtain ⟨_, v, hv, hp⟩ := horigin q (hCsub.subset hq)
      refine process_section_fixpoint q.1 v q.2 ?_ hp
      intro hqres l hvl p hpl
      rw [hqres] at hv
      rw [hvl] at hv
      unfold templateWF at hwf
      rw [hv] at hwf
      rw [List.all_eq_true] at hwf
      exact hwf p hpl
    rw [collectSections_self standard_sections C (by decide) hCkeys hfix]
    simp only [Option.map_some', Option.some.injEq]
    refine List.filter_eq_self.mpr ?_
    intro a ha
    rw [← h] at ha
    exact (List.mem_filter.mp ha).2

/-- Witness for `clean_cdk_template_idempotent` at a concrete template
carrying all the CDK artifacts. -/
theorem clean_cdk_template_idempotent_witness :
    clean_cdk_template
        [("Parameters", .obj [("Real", .obj [("Type", .str "String")])]),
         ("Resources", .obj [("MyBucket", .obj [("Type", .str "AWS::S3::Bucket")])])]
      = some
        [("Parameters", .obj [("Real", .obj [("Type", .str "String")])]),
         ("Resources", .obj [("MyBucket", .obj [("Type", .str "AWS::S3::Bucket")])])] :=
  clean_cdk_template_idempotent
    [("Resources", .obj
       [("CDKMetadata", .obj [("Type", .str "AWS::CDK::Metadata")]),
        ("MyBucket", .obj
          [("Type", .str "AWS::S3::Bucket"),
           ("Metadata", .obj [("aws:cdk:path", .str "Stack/MyBucket")])]),
        ("CondRes", .obj [("Type", .str "X"),
          ("Condition", .str "CDKMetadataAvailable")])]),
     ("Parameters", .obj
       [("BootstrapVersion", .obj [("Type", .str "String")]),
        ("Skipped", .obj [("Description", .str "blah [cdk:skip] blah")]),
        ("Real", .obj [("Type", .str "String")])]),
     ("Conditions", .obj [("CDKMetadataAvailable", .obj [("x", .null)])]),
     ("Rules", .obj [("CheckBootstrapVersion", .obj [])])]
    _ (by decide) rfl

/-- Inversion of Resources processing: the content was a dict and was
cleaned by `_clean_resources`. -/
theorem process_section_resources_inv (w v' : JVal)
    (h : process_section false "Resources" w = some v') :
    ∃ rs c a, w = JVal.obj rs ∧ v' = JVal.obj c ∧
      clean_resources_st false rs = some (c, a) := by
  cases w with
  | obj rs =>
    simp only [process_section, if_true, eq_self_iff_true] at h
    cases hst : clean_resources_st false rs with
    | none =>
      rw [show clean_resources false rs = none by
        simp [clean_resources, hst]] at h
      exact Option.noConfusion h
    | some p =>
      obtain ⟨c, a⟩ := p
      rw [show clean_resources false rs = some c by
        simp [clean_resources, hst]] at h
      simp only [Option.map_some', Option.some.injEq] at h
      exact ⟨rs, c, a, rfl, h.symm, hst⟩
  | null => simp [process_section] at h
  | bool b => simp [process_section] at h
  | num n => simp [process_section] at h
  | str s => simp [process_section] at h
  | arr l => simp [process_section] at h

/-- Inversion of Parameters processing: the content was a dict and was
cleaned by `_clean_parameters`. -/
theorem process_section_parameters_inv (w v' : JVal)
    (h : process_section false "Parameters" w = some v') :
    ∃ ps qs, w = JVal.obj ps ∧ v' = JVal.obj qs ∧
      clean_parameters ps = some qs := by
  cases w with
  | obj ps =>
    simp only [process_section,
      if_neg (by decide : ¬("Parameters" = "Resources")), if_true,
      eq_self_iff_true] at h
    cases hq : clean_parameters ps with
    | none => rw [hq] at h; exact Option.noConfusion h
    | some qs =>
      rw [hq] at h
      simp only [Option.map_some', Option.some.injEq] at h
      exact ⟨ps, qs, rfl, h.symm, hq⟩
  | null => simp [process_section] at h
  | bool b => simp [process_section] at h
  | num n => simp [process_section] at h
  | str s => simp [process_section] at h
  | arr l => simp [process_section] at h

/-- Inversion of Conditions processing. -/
theorem process_section_conditions_inv (w v' : JVal)
    (h : process_section false "Conditions" w = some v') :
    ∃ cs, w = JVal.obj cs ∧ v' = JVal.obj (clean_conditions cs) := by
  cases w with
  | obj cs =>
    simp only [process_section,
      if_neg (by decide : ¬("Conditions" = "Resources")),
      if_neg (by decide : ¬("Conditions" = "Parameters")), if_true,
      eq_self_iff_true, Option.some.injEq] at h
    exact ⟨cs, rfl, h.symm⟩
  | null => simp [process_section] at h
  | bool b => simp [process_section] at h
  | num n => simp [process_section] at h
  | str s => simp [process_section] at h
  | arr l => simp [process_section] at h

/-- The resource scan of `is_cdk_template` reports no CDK metadata
resource when every value is a dict whose Type is not the marker. -/
theorem anyCdkType_none :
    ∀ (vals : List JVal),
      (∀ v ∈ vals, ∃ f, v = JVal.obj f ∧
        isStrVal (pyGet f "Type") CDK_METADATA_RESOURCE_TYPE = false) →
      anyCdkType vals = some false := by
  intro vals
  induction vals with
  | nil => intro _; rfl
  | cons v rest ih =>
    intro hv
    obtain ⟨f, rfl, hf⟩ := hv v (List.mem_cons_self _ _)
    simp only [anyCdkType, hf, Bool.false_eq_true, if_false]
    exact ih (fun w hw => hv w (List.mem_cons_of_mem _ hw))

/-- Evaluation of `is_cdk_template` from the three section facts. -/
theorem is_cdk_template_eval (C cr qp : List (String × JVal))
    (hR : (pyGet C "Resources").getD (.obj []) = JVal.obj cr)
    (hany : anyCdkType (cr.map (fun p => p.2)) = some false)
    (hP : (pyGet C "Parameters").getD (.obj []) = JVal.obj qp)
    (hqp : hasKey qp CDK_BOOTSTRAP_PARAM = false)
    (hrules : pyGet C "Rules" = none) :
    is_cdk_template C = some false := by
  simp only [is_cdk_template, hR, hany, hP, pyIn, hqp, hrules,
    Option.getD_none, hasKey]

/-- Claim C9: the output of `clean` is never recognized as CDK-generated
by `is_cdk_template` — it contains no metadata resource, no bootstrap
parameter, and no Rules section. -/
theorem cleaned_template_is_not_cdk (template C : List (String × JVal))
    (h : clean_cdk_template template = some C) :
    is_cdk_template C = some false := by
  unfold clean_cdk_template clean_template at h
  cases hcs : collectSections false template standard_sections with
  | none => rw [hcs] at h; exact Option.noConfusion h
  | some ps =>
    rw [hcs] at h
    simp only [Option.map_some', Option.some.injEq] at h
    have horigin := collectSections_origin standard_sections template ps false hcs
    have hkeys := collectSections_keys_sublist standard_sections template ps false hcs
    have hCsub : List.Sublist C ps := by
      rw [← h]
      exact List.filter_sublist _
    have hrules : pyGet C "Rules" = none := by
      apply pyGet_eq_none_of_not_mem_keys
      intro hm
      have hmem := ((hCsub.map Prod.fst).trans hkeys).subset hm
      simp [standard_sections] at hmem
    have hresfact : ∃ cr, (pyGet C "Resources").getD (.obj []) = JVal.obj cr ∧
        anyCdkType (cr.map (fun p => p.2)) = some false := by
      cases hR : pyGet C "Resources" with
      | none => exact ⟨[], rfl, rfl⟩
      | some vR =>
        obtain ⟨_, w, hw, hproc⟩ := horigin _ (hCsub.subset (pyGet_mem C _ vR hR))
        obtain ⟨rs, c, a, rfl, rfl, hst⟩ := process_section_resources_inv w vR hproc
        refine ⟨c, rfl, anyCdkType_none _ ?_⟩
        intro v hv
        obtain ⟨q, hq, hqv⟩ := List.mem_map.mp hv
        obtain ⟨name, fields, f', fa, hqe, _, ht, _, hcm⟩ :=
          clean_resources_origin rs c a false hst q hq
        refine ⟨f', by rw [← hqv, hqe], ?_⟩
        rw [cleanResourceMeta_pyGet_other false fields f' fa "Type" (by decide) hcm]
        exact ht
    have hparfact : ∃ qp, (pyGet C "Parameters").getD (.obj []) = JVal.obj qp ∧
        hasKey qp CDK_BOOTSTRAP_PARAM = false := by
      cases hP : pyGet C "Parameters" with
      | none => exact ⟨[], rfl, rfl⟩
      | some vP =>
        obtain ⟨_, w, hw, hproc⟩ := horigin _ (hCsub.subset (pyGet_mem C _ vP hP))
        obtain ⟨ps₀, qs, rfl, rfl, hq⟩ := process_section_parameters_inv w vP hproc
        exact ⟨qs, rfl, clean_parameters_no_bootstrap ps₀ qs hq⟩
    obtain ⟨cr, hR, hany⟩ := hresfact
    obtain ⟨qp, hP, hqp⟩ := hparfact
    exact is_cdk_template_eval C cr qp hR hany hP hqp hrules

/-- Witness for `cleaned_template_is_not_cdk`. -/
theorem cleaned_template_is_not_cdk_witness :
    is_cdk_template
        [("Parameters", .obj [("Real", .obj [("Type", .str "String")])]),
         ("Resources", .obj [("MyBucket", .obj [("Type", .str "AWS::S3::Bucket")])])]
      = some false :=
  cleaned_template_is_not_cdk
    [("Resources", .obj
       [("CDKMetadata", .obj [("Type", .str "AWS::CDK::Metadata")]),
        ("MyBucket", .obj
          [("Type", .str "AWS::S3::Bucket"),
           ("Metadata", .obj [("aws:cdk:path", .str "Stack/MyBucket")])])]),
     ("Parameters", .obj
       [("BootstrapVersion", .obj [("Type", .str "String")]),
        ("Real", .obj [("Type", .str "String")])]),
     ("Rules", .obj [("CheckBootstrapVersion", .obj [])])]
    _ rfl

/-- Counterexample to claim C5 as stated: with the default
`keep_resource_metadata = False`, `clean` strips `aws:cdk:path` from a
surviving resource's Metadata, so the value bound to the surviving
logical name `MyBucket` changes. -/
theorem clean_changes_surviving_value_counterexample :
    clean_cdk_template
        [("Resources", .obj [("MyBucket", .obj
          [("Type", .str "AWS::S3::Bucket"),
           ("Metadata", .obj [("aws:cdk:path", .str "Stack/MyBucket")])])])]
      = some [("Resources", .obj [("MyBucket", .obj
          [("Type", .str "AWS::S3::Bucket")])])] ∧
    pyGet [("MyBucket", JVal.obj
          [("Type", .str "AWS::S3::Bucket"),
           ("Metadata", .obj [("aws:cdk:path", .str "Stack/MyBucket")])])]
        "MyBucket"
      ≠ pyGet [("MyBucket", JVal.obj [("Type", .str "AWS::S3::Bucket")])]
        "MyBucket" := by
  refine ⟨rfl, ?_⟩
  intro he
  simp [pyGet] at he

/-- Claim C5 (amended): `clean` adds no top-level section absent from the
input; within `Parameters` and `Conditions` the output is a sublist of
the input (no added names, unchanged values, preserved order); within
`Resources` the surviving names form a sublist of the input's names and
each surviving resource is its input definition changed only by the
Metadata-stripping step. -/
theorem clean_never_adds_and_only_strips_metadata
    (template C : List (String × JVal))
    (h : clean_cdk_template template = some C) :
    (∀ s v, pyGet C s = some v → ∃ w, pyGet template s = some w) ∧
    (∀ ps v, pyGet template "Parameters" = some (JVal.obj ps) →
      pyGet C "Parameters" = some v →
      ∃ qs, v = JVal.obj qs ∧ List.Sublist qs ps) ∧
    (∀ cs v, pyGet template "Conditions" = some (JVal.obj cs) →
      pyGet C "Conditions" = some v →
      ∃ ds, v = JVal.obj ds ∧ List.Sublist ds cs) ∧
    (∀ rs v, pyGet template "Resources" = some (JVal.obj rs) →
      pyGet C "Resources" = some v →
      ∃ c a, v = JVal.obj c ∧ clean_resources_st false rs = some (c, a) ∧
        List.Sublist (c.map Prod.fst) (rs.map Prod.fst) ∧
        ∀ q ∈ c, ∃ name fields f' fa, q = (name, JVal.obj f') ∧
          (name, JVal.obj fields) ∈ rs ∧
          cleanResourceMetaSt false fields = some (f', fa)) := by
  unfold clean_cdk_template clean_template at h
  cases hcs : collectSections false template standard_sections with
  | none => rw [hcs] at h; exact Option.noConfusion h
  | some ps =>
    rw [hcs] at h
    simp only [Option.map_some', Option.some.injEq] at h
    have horigin := collectSections_origin standard_sections template ps false hcs
    have hCsub : List.Sublist C ps := by
      rw [← h]
      exact List.filter_sublist _
    refine ⟨?_, ?_, ?_, ?_⟩
    · intro s v hv
      obtain ⟨_, w, hw, _⟩ := horigin _ (hCsub.subset (pyGet_mem C s v hv))
      exact ⟨w, hw⟩
    · intro ps₀ v hin hv
      obtain ⟨_, w, hw, hproc⟩ := horigin _ (hCsub.subset (pyGet_mem C _ v hv))
      rw [hin] at hw
      obtain rfl := Option.some.inj hw
      obtain ⟨ps₁, qs, hps₁, rfl, hq⟩ := process_section_parameters_inv _ _ hproc
      obtain rfl := JVal.obj.inj hps₁
      exact ⟨qs, rfl, clean_parameters_sublist _ _ hq⟩
    · intro cs v hin hv
      obtain ⟨_, w, hw, hproc⟩ := horigin _ (hCsub.subset (pyGet_mem C _ v hv))
      rw [hin] at hw
      obtain rfl := Option.some.inj hw
      obtain ⟨cs₁, hcs₁, rfl⟩ := process_section_conditions_inv _ _ hproc
      obtain rfl := JVal.obj.inj hcs₁
      exact ⟨clean_conditions cs, rfl, clean_conditions_sublist cs⟩
    · intro rs v hin hv
      obtain ⟨_, w, hw, hproc⟩ := horigin _ (hCsub.subset (pyGet_mem C _ v hv))
      rw [hin] at hw
      obtain rfl := Option.some.inj hw
      obtain ⟨rs₁, c, a, hrs₁, rfl, hst⟩ := process_section_resources_inv _ _ hproc
      obtain rfl := JVal.obj.inj hrs₁
      refine ⟨c, a, rfl, hst, clean_resources_names_sublist _ _ _ _ hst, ?_⟩
      intro q hq
      obtain ⟨name, fields, f', fa, hqe, hmem, _, _, hcm⟩ :=
        clean_resources_origin _ _ _ _ hst q hq
      exact ⟨name, fields, f', fa, hqe, hmem, hcm⟩

/-- Witness for `clean_never_adds_and_only_strips_metadata` at the
counterexample template. -/
theorem clean_never_adds_and_only_strips_metadata_witness :
    (∀ s v, pyGet
        [("Resources", JVal.obj [("MyBucket", JVal.obj
          [("Type", .str "AWS::S3::Bucket")])])] s = some v →
      ∃ w, pyGet
        [("Resources", JVal.obj [("MyBucket", JVal.obj
          [("Type", .str "AWS::S3::Bucket"),
           ("Metadata", .obj [("aws:cdk:path", .str "Stack/MyBucket")])])])]
        s = some w) ∧
    (∀ ps v, pyGet
        [("Resources", JVal.obj [("MyBucket", JVal.obj
          [("Type", .str "AWS::S3::Bucket"),
           ("Metadata", .obj [("aws:cdk:path", .str "Stack/MyBucket")])])])]
        "Parameters" = some (JVal.obj ps) →
      pyGet [("Resources", JVal.obj [("MyBucket", JVal.obj
          [("Type", .str "AWS::S3::Bucket")])])] "Parameters" = some v →
      ∃ qs, v = JVal.obj qs ∧ List.Sublist qs ps) ∧
    (∀ cs v, pyGet
        [("Resources", JVal.obj [("MyBucket", JVal.obj
          [("Type", .str "AWS::S3::Bucket"),
           ("Metadata", .obj [("aws:cdk:path", .str "Stack/MyBucket")])])])]
        "Conditions" = some (JVal.obj cs) →
      pyGet [("Resources", JVal.obj [("MyBucket", JVal.obj
          [("Type", .str "AWS::S3::Bucket")])])] "Conditions" = some v →
      ∃ ds, v = JVal.obj ds ∧ List.Sublist ds cs) ∧
    (∀ rs v, pyGet
        [("Resources", JVal.obj [("MyBucket", JVal.obj
          [("Type", .str "AWS::S3::Bucket"),
           ("Metadata", .obj [("aws:cdk:path", .str "Stack/MyBucket")])])])]
        "Resources" = some (JVal.obj rs) →
      pyGet [("Resources", JVal.obj [("MyBucket", JVal.obj
          [("Type", .str "AWS::S3::Bucket")])])] "Resources" = some v →
      ∃ c a, v = JVal.obj c ∧ clean_resources_st false rs = some (c, a) ∧
        List.Sublist (c.map Prod.fst) (rs.map Prod.fst) ∧
        ∀ q ∈ c, ∃ name fields f' fa, q = (name, JVal.obj f') ∧
          (name, JVal.obj fields) ∈ rs ∧
          cleanResourceMetaSt false fields = some (f', fa)) :=
  clean_never_adds_and_only_strips_metadata
    [("Resources", .obj [("MyBucket", .obj
      [("Type", .str "AWS::S3::Bucket"),
       ("Metadata", .obj [("aws:cdk:path", .str "Stack/MyBucket")])])])]
    [("Resources", .obj [("MyBucket", .obj [("Type", .str "AWS::S3::Bucket")])])]
    rfl

/-- Claim C10: `clean` with the default `keep_resource_metadata = False`
mutates its input — for a surviving resource whose (duplicate-free)
Metadata dict holds `aws:cdk:path`, the input template object after the
call has that key deleted from the shared Metadata dict, and the input
is no longer equal to what was passed in. -/
theorem clean_mutates_shared_metadata
    (template C Ta rs fields m : List (String × JVal)) (i : Nat) (name : String)
    (hres : pyGet template "Resources" = some (JVal.obj rs))
    (hst : clean_template_st false template = some (C, Ta))
    (hi : rs.get? i = some (name, JVal.obj fields))
    (ht : isStrVal (pyGet fields "Type") CDK_METADATA_RESOURCE_TYPE = false)
    (hc : isStrVal (pyGet fields "Condition") CDK_METADATA_CONDITION = false)
    (hm : pyGet fields "Metadata" = some (JVal.obj m))
    (hk : hasKey m CDK_PATH_METADATA_KEY = true)
    (hnd : nodupKeys m = true) :
    ∃ rs', pyGet Ta "Resources" = some (JVal.obj rs') ∧
      rs'.get? i = some (name, JVal.obj (dictSet fields "Metadata"
        (JVal.obj (dictDel m CDK_PATH_METADATA_KEY)))) ∧
      hasKey (dictDel m CDK_PATH_METADATA_KEY) CDK_PATH_METADATA_KEY = false ∧
      Ta ≠ template := by
  unfold clean_template_st at hst
  cases hct : clean_template false template with
  | none => rw [hct] at hst; exact Option.noConfusion hst
  | some c =>
    have hex : ∃ pr, clean_resources_st false rs = some pr := by
      unfold clean_template at hct
      cases hcs : collectSections false template standard_sections with
      | none => rw [hcs] at hct; exact Option.noConfusion hct
      | some ps =>
        obtain ⟨v', hv'⟩ := collectSections_process_at standard_sections
          template ps false "Resources" (JVal.obj rs) hcs
          (by simp [standard_sections]) hres
        obtain ⟨rs₀, c₀, a₀, hrs₀, _, hst₀⟩ :=
          process_section_resources_inv _ _ hv'
        obtain rfl := JVal.obj.inj hrs₀
        exact ⟨(c₀, a₀), hst₀⟩
    obtain ⟨⟨cres, ares⟩, hstres⟩ := hex
    simp only [hct, hres, hstres, Option.some.injEq, Prod.mk.injEq] at hst
    obtain ⟨_, hTa⟩ := hst
    have hget : pyGet Ta "Resources" = some (JVal.obj ares) := by
      rw [← hTa]
      exact pyGet_dictSet_self _ _ _
    have hpos := clean_resources_after_get rs cres ares i name fields m
      hstres hi ht hc hm hk
    have hkey := hasKey_dictDel_self m CDK_PATH_METADATA_KEY hnd
    refine ⟨ares, hget, hpos, hkey, ?_⟩
    intro he
    rw [he, hres] at hget
    have hra : rs = ares := JVal.obj.inj (Option.some.inj hget)
    rw [← hra, hi] at hpos
    have hfe : fields = dictSet fields "Metadata"
        (JVal.obj (dictDel m CDK_PATH_METADATA_KEY)) :=
      JVal.obj.inj (congrArg Prod.snd (Option.some.inj hpos))
    have hmm : pyGet fields "Metadata"
        = some (JVal.obj (dictDel m CDK_PATH_METADATA_KEY)) := by
      calc pyGet fields "Metadata"
          = pyGet (dictSet fields "Metadata"
              (JVal.obj (dictDel m CDK_PATH_METADATA_KEY))) "Metadata" := by
            rw [← hfe]
        _ = some (JVal.obj (dictDel m CDK_PATH_METADATA_KEY)) :=
            pyGet_dictSet_self _ _ _
    rw [hm] at hmm
    have hmd : m = dictDel m CDK_PATH_METADATA_KEY :=
      JVal.obj.inj (Option.some.inj hmm)
    rw [← hmd, hk] at hkey
    exact Bool.noConfusion hkey

/-- Witness for `clean_mutates_shared_metadata`: after cleaning, the
input's `MyBucket` Metadata dict has lost the path key in place. -/
theorem clean_mutates_shared_metadata_witness :
    ∃ rs', pyGet
        [("Resources", JVal.obj [("MyBucket", JVal.obj
          [("Type", .str "AWS::S3::Bucket"),
           ("Metadata", JVal.obj [])])])]
        "Resources" = some (JVal.obj rs') ∧
      rs'.get? 0 = some ("MyBucket", JVal.obj (dictSet
        [("Type", JVal.str "AWS::S3::Bucket"),
         ("Metadata", JVal.obj [("aws:cdk:path", JVal.str "Stack/MyBucket")])]
        "Metadata"
        (JVal.obj (dictDel [("aws:cdk:path", JVal.str "Stack/MyBucket")]
          CDK_PATH_METADATA_KEY)))) ∧
      hasKey (dictDel [("aws:cdk:path", JVal.str "Stack/MyBucket")]
          CDK_PATH_METADATA_KEY) CDK_PATH_METADATA_KEY = false ∧
      ([("Resources", JVal.obj [("MyBucket", JVal.obj
          [("Type", .str "AWS::S3::Bucket"),
           ("Metadata", JVal.obj [])])])] : List (String × JVal))
        ≠ [("Resources", JVal.obj [("MyBucket", JVal.obj
          [("Type", .str "AWS::S3::Bucket"),
           ("Metadata", JVal.obj [("aws:cdk:path", JVal.str "Stack/MyBucket")])])])] :=
  clean_mutates_shared_metadata
    [("Resources", .obj [("MyBucket", .obj
      [("Type", .str "AWS::S3::Bucket"),
       ("Metadata", .obj [("aws:cdk:path", .str "Stack/MyBucket")])])])]
    [("Resources", .obj [("MyBucket", .obj [("Type", .str "AWS::S3::Bucket")])])]
    [("Resources", .obj [("MyBucket", .obj
      [("Type", .str "AWS::S3::Bucket"), ("Metadata", .obj [])])])]
    [("MyBucket", .obj
      [("Type", .str "AWS::S3::Bucket"),
       ("Metadata", .obj [("aws:cdk:path", .str "Stack/MyBucket")])])]
    [("Type", .str "AWS::S3::Bucket"),
     ("Metadata", .obj [("aws:cdk:path", .str "Stack/MyBucket")])]
    [("aws:cdk:path", .str "Stack/MyBucket")]
    0 "MyBucket" rfl rfl rfl rfl rfl rfl rfl rfl
